import Mathlib

/-!
Verification of the Notepad4 incremental syntax-colouring core.

Part 1 models the `Scintilla::SplitVector` gap buffer (SplitVector.h, embedded
in `src/src/EditLexers/stlGo.c`).  Machine integers (`ptrdiff_t`) are modelled
as `Int`; the backing store `std::vector<T> body` as a `List T` whose length is
the capacity.  Overlapping-range `std::move` / `std::move_backward` calls read
every element from the pre-move store, which is exactly their defined meaning
for the directions used by `GapTo`.
-/

namespace GapModel

/-- Elements `[src, src+len)` of the original list `a` written onto positions
`[dst, dst+len)`.  Functional meaning of the `std::move` / `std::move_backward`
calls in `SplitVector::GapTo` (both read only pre-move contents for the
overlap directions they are used in). -/
def copyWithin [Inhabited T] (a : List T) (src dst : Nat) : Nat → List T
  | 0 => a
  | n + 1 => (copyWithin a src dst n).set (dst + n) (a.getD (src + n) default)

/-- The values `vs` written onto positions `dst, dst+1, ...` of `l`
(`std::fill_n` / `std::copy_n` into the gap). -/
def setRange (l : List T) (dst : Nat) : List T → List T
  | [] => l
  | v :: vs => setRange (l.set dst v) (dst + 1) vs

theorem getD_set_self {l : List T} {i : Nat} (h : i < l.length) (v d : T) :
    (l.set i v).getD i d = v := by
  rw [List.getD_eq_getElem?_getD, List.getElem?_set_self h]
  rfl

theorem getD_set_of_ne {l : List T} {i j : Nat} (h : i ≠ j) (v d : T) :
    (l.set i v).getD j d = l.getD j d := by
  rw [List.getD_eq_getElem?_getD, List.getElem?_set_ne h, ← List.getD_eq_getElem?_getD]

theorem getD_append_left {l l' : List T} {i : Nat} (h : i < l.length) (d : T) :
    (l ++ l').getD i d = l.getD i d := by
  rw [List.getD_eq_getElem?_getD, List.getElem?_append_left h, ← List.getD_eq_getElem?_getD]

theorem length_copyWithin [Inhabited T] (a : List T) (src dst n : Nat) :
    (copyWithin a src dst n).length = a.length := by
  induction n with
  | zero => rfl
  | succ m ih => simpa [copyWithin] using ih

theorem getD_copyWithin_lt [Inhabited T] (a : List T) (src dst n : Nat) {i : Nat}
    (h : i < dst) (d : T) : (copyWithin a src dst n).getD i d = a.getD i d := by
  induction n with
  | zero => rfl
  | succ m ih => rw [copyWithin, getD_set_of_ne (by omega), ih]

theorem getD_copyWithin_ge [Inhabited T] (a : List T) (src dst n : Nat) {i : Nat}
    (h : dst + n ≤ i) (d : T) : (copyWithin a src dst n).getD i d = a.getD i d := by
  induction n with
  | zero => rfl
  | succ m ih => rw [copyWithin, getD_set_of_ne (by omega), ih (by omega)]

theorem getD_copyWithin_mid [Inhabited T] (a : List T) (src dst n : Nat) {i : Nat}
    (h1 : dst ≤ i) (h2 : i < dst + n) (h3 : i < a.length) (d : T) :
    (copyWithin a src dst n).getD i d = a.getD (src + (i - dst)) default := by
  induction n with
  | zero => omega
  | succ m ih =>
    rw [copyWithin]
    by_cases hi : i = dst + m
    · subst hi
      rw [getD_set_self (by rw [length_copyWithin]; omega)]
      congr 1
      omega
    · rw [getD_set_of_ne (by omega), ih (by omega)]

theorem length_setRange (l : List T) (dst : Nat) (vs : List T) :
    (setRange l dst vs).length = l.length := by
  induction vs generalizing l dst with
  | nil => rfl
  | cons v vs ih => rw [setRange, ih, List.length_set]

theorem getD_setRange_lt (l : List T) (dst : Nat) (vs : List T) {i : Nat}
    (h : i < dst) (d : T) : (setRange l dst vs).getD i d = l.getD i d := by
  induction vs generalizing l dst with
  | nil => rfl
  | cons v vs ih => rw [setRange, ih _ _ (by omega), getD_set_of_ne (by omega)]

theorem getD_setRange_ge (l : List T) (dst : Nat) (vs : List T) {i : Nat}
    (h : dst + vs.length ≤ i) (d : T) : (setRange l dst vs).getD i d = l.getD i d := by
  induction vs generalizing l dst with
  | nil => rfl
  | cons v vs ih =>
    simp only [List.length_cons] at h
    rw [setRange, ih _ _ (by omega), getD_set_of_ne (by omega)]

theorem getD_setRange_mid (l : List T) (dst : Nat) (vs : List T) {i : Nat}
    (h1 : dst ≤ i) (h2 : i < dst + vs.length) (h3 : i < l.length) (d dd : T) :
    (setRange l dst vs).getD i d = vs.getD (i - dst) dd := by
  induction vs generalizing l dst with
  | nil => simp at h2; omega
  | cons v vs ih =>
    rw [setRange]
    by_cases hi : i = dst
    · subst hi
      rw [getD_setRange_lt _ _ _ (by omega), getD_set_self h3]
      simp
    · have hk : i - dst = (i - (dst + 1)) + 1 := by omega
      rw [ih (l.set dst v) (dst + 1) (by omega) (by simp at h2 ⊢; omega)
        (by simpa using h3), hk]
      rfl

/-- The `SplitVector<T>` data structure from SplitVector.h: a gap buffer whose
backing store `body` holds `part1Length` elements, then a gap of `gapLength`
unused slots, then the remaining `lengthBody - part1Length` elements. -/
structure SplitVector (T : Type) where
  body : List T
  empty : T
  lengthBody : Int
  part1Length : Int
  gapLength : Int
  growSize : Int

namespace SplitVector

variable {T : Type} [Inhabited T]

/-- `body.size()`: the capacity of the backing store. -/
def size (sv : SplitVector T) : Int := (sv.body.length : Int)

/-- `SplitVector::GapTo`: move the gap so that it starts at `position`. -/
def GapTo (sv : SplitVector T) (position : Int) : SplitVector T :=
  if position = sv.part1Length then sv
  else if position < sv.part1Length then
    { sv with
      body := copyWithin sv.body position.toNat (position + sv.gapLength).toNat
        (sv.part1Length - position).toNat
      part1Length := position }
  else
    { sv with
      body := copyWithin sv.body (sv.part1Length + sv.gapLength).toNat
        sv.part1Length.toNat (position - sv.part1Length).toNat
      part1Length := position }

/-- The `while (growSize < body.size() / 6) growSize *= 2;` loop of
`SplitVector::RoomFor`.  For nonpositive `growSize` the source loop would not
terminate; every reachable state has positive `growSize`, where the extra
guard below never matters. -/
def growWhileAux : Nat → Int → Int → Int
  | 0, g, _ => g
  | fuel + 1, g, limit =>
    if 0 < g ∧ g < limit then growWhileAux fuel (2 * g) limit else g

/-- Entry point of the growth loop.  The fuel `(limit - growSize).toNat` is
enough: each pass at least halves the remaining distance to `limit`. -/
def growWhile (growSize limit : Int) : Int :=
  growWhileAux (limit - growSize).toNat growSize limit

/-- `SplitVector::ReAllocate`: grow the backing store to `newSize`, first
moving the gap to the end.  The source throws `std::runtime_error` for a
negative `newSize`; that branch (unreachable from `RoomFor` on well-formed
states) is modelled as the identity. -/
def ReAllocate (sv : SplitVector T) (newSize : Int) : SplitVector T :=
  if newSize < 0 then sv
  else if sv.size < newSize then
    let sv1 := sv.GapTo sv.lengthBody
    { sv1 with
      gapLength := sv1.gapLength + (newSize - sv1.size)
      body := sv1.body ++ List.replicate (newSize - sv1.size).toNat default }
  else sv

/-- `SplitVector::RoomFor`: ensure the gap can absorb `insertionLength`
elements, reallocating with geometric growth if needed. -/
def RoomFor (sv : SplitVector T) (insertionLength : Int) : SplitVector T :=
  if sv.gapLength ≤ insertionLength then
    let g := growWhile sv.growSize (sv.size / 6)
    ReAllocate { sv with growSize := g } (sv.size + insertionLength + g)
  else sv

/-- `SplitVector::Init`: release the backing store and reset to empty. -/
def Init (sv : SplitVector T) : SplitVector T :=
  { sv with
    body := []
    lengthBody := 0
    part1Length := 0
    gapLength := 0
    growSize := 8 }

/-- `SplitVector::ValueAt`: element at a logical position, or `empty` when the
position is outside `[0, lengthBody)`. -/
def ValueAt (sv : SplitVector T) (position : Int) : T :=
  if position < sv.part1Length then
    if position < 0 then sv.empty
    else sv.body.getD position.toNat default
  else
    if sv.lengthBody ≤ position then sv.empty
    else sv.body.getD (sv.gapLength + position).toNat default

/-- `SplitVector::SetValueAt`: write at a logical position; no assignment when
the position is outside `[0, lengthBody)`. -/
def SetValueAt (sv : SplitVector T) (position : Int) (v : T) : SplitVector T :=
  if position < sv.part1Length then
    if position < 0 then sv
    else { sv with body := sv.body.set position.toNat v }
  else
    if sv.lengthBody ≤ position then sv
    else { sv with body := sv.body.set (sv.gapLength + position).toNat v }

/-- `SplitVector::Length`. -/
def Length (sv : SplitVector T) : Int := sv.lengthBody

/-- `SplitVector::Insert`: insert one value; no-op for a position outside
`[0, lengthBody]`. -/
def Insert (sv : SplitVector T) (position : Int) (v : T) : SplitVector T :=
  if position < 0 ∨ sv.lengthBody < position then sv
  else
    let sv1 := (sv.RoomFor 1).GapTo position
    { sv1 with
      body := sv1.body.set sv1.part1Length.toNat v
      lengthBody := sv1.lengthBody + 1
      part1Length := sv1.part1Length + 1
      gapLength := sv1.gapLength - 1 }

/-- `SplitVector::InsertValue`: insert `insertLength` copies of `v`. -/
def InsertValue (sv : SplitVector T) (position insertLength : Int) (v : T) :
    SplitVector T :=
  if 0 < insertLength then
    if position < 0 ∨ sv.lengthBody < position then sv
    else
      let sv1 := (sv.RoomFor insertLength).GapTo position
      { sv1 with
        body := setRange sv1.body sv1.part1Length.toNat
          (List.replicate insertLength.toNat v)
        lengthBody := sv1.lengthBody + insertLength
        part1Length := sv1.part1Length + insertLength
        gapLength := sv1.gapLength - insertLength }
  else sv

/-- `SplitVector::InsertEmpty`: insert `insertLength` value-initialised
elements (the returned pointer is not modelled). -/
def InsertEmpty (sv : SplitVector T) (position insertLength : Int) :
    SplitVector T :=
  if 0 < insertLength then
    if position < 0 ∨ sv.lengthBody < position then sv
    else
      let sv1 := (sv.RoomFor insertLength).GapTo position
      { sv1 with
        body := setRange sv1.body sv1.part1Length.toNat
          (List.replicate insertLength.toNat default)
        lengthBody := sv1.lengthBody + insertLength
        part1Length := sv1.part1Length + insertLength
        gapLength := sv1.gapLength - insertLength }
  else sv

/-- `SplitVector::InsertFromArray`: insert `insertLength` elements copied from
`s` starting at `positionFrom` (`std::copy_n` semantics). -/
def InsertFromArray (sv : SplitVector T) (positionToInsert : Int) (s : List T)
    (positionFrom insertLength : Int) : SplitVector T :=
  if 0 < insertLength then
    if positionToInsert < 0 ∨ sv.lengthBody < positionToInsert then sv
    else
      let sv1 := (sv.RoomFor insertLength).GapTo positionToInsert
      { sv1 with
        body := setRange sv1.body sv1.part1Length.toNat
          ((s.drop positionFrom.toNat).take insertLength.toNat)
        lengthBody := sv1.lengthBody + insertLength
        part1Length := sv1.part1Length + insertLength
        gapLength := sv1.gapLength - insertLength }
  else sv

/-- `SplitVector::DeleteRange`: delete `[position, position+deleteLength)`;
no-op when the range exceeds `[0, lengthBody)`; full deletion resets the
buffer via `Init`. -/
def DeleteRange (sv : SplitVector T) (position deleteLength : Int) :
    SplitVector T :=
  if position < 0 ∨ sv.lengthBody < position + deleteLength then sv
  else if position = 0 ∧ deleteLength = sv.lengthBody then sv.Init
  else if 0 < deleteLength then
    let sv1 := sv.GapTo position
    { sv1 with
      lengthBody := sv1.lengthBody - deleteLength
      gapLength := sv1.gapLength + deleteLength }
  else sv

/-- `SplitVector::RangePointer`: only its gap relocation (performed when the
requested range straddles the gap) is modelled; the returned pointer is not. -/
def RangePointer (sv : SplitVector T) (position rangeLength : Int) :
    SplitVector T :=
  if position < sv.part1Length then
    if sv.part1Length < position + rangeLength then sv.GapTo position else sv
  else sv

/-- A freshly default-constructed `SplitVector` (empty buffer). -/
def mkEmpty (T : Type) [Inhabited T] : SplitVector T :=
  { body := []
    empty := default
    lengthBody := 0
    part1Length := 0
    gapLength := 0
    growSize := 8 }

/-- The insert/delete operations of claim C2. -/
inductive Op (T : Type) where
  | ins (position : Int) (v : T)
  | insValue (position insertLength : Int) (v : T)
  | insFromArray (positionToInsert : Int) (s : List T)
      (positionFrom insertLength : Int)
  | insEmpty (position insertLength : Int)
  | delRange (position deleteLength : Int)

/-- Apply one operation. -/
def applyOp (sv : SplitVector T) : Op T → SplitVector T
  | .ins p v => sv.Insert p v
  | .insValue p n v => sv.InsertValue p n v
  | .insFromArray p s f n => sv.InsertFromArray p s f n
  | .insEmpty p n => sv.InsertEmpty p n
  | .delRange p n => sv.DeleteRange p n

/-- Apply a sequence of operations, oldest first. -/
def applyOps (sv : SplitVector T) : List (Op T) → SplitVector T
  | [] => sv
  | o :: os => applyOps (sv.applyOp o) os

/-- Well-formedness of a `SplitVector` state: the gap invariant
`gapLength == body.size() - lengthBody` together with the dimension
bookkeeping that every public operation maintains. -/
def WF (sv : SplitVector T) : Prop :=
  sv.gapLength = sv.size - sv.lengthBody ∧
  0 ≤ sv.part1Length ∧ sv.part1Length ≤ sv.lengthBody ∧
  0 ≤ sv.lengthBody ∧ sv.lengthBody ≤ sv.size ∧ 0 < sv.growSize

instance (sv : SplitVector T) : Decidable sv.WF := by
  unfold WF; infer_instance

end SplitVector

end GapModel

namespace GapModel

namespace SplitVector

variable {T : Type} [Inhabited T]

@[simp]
theorem GapTo_lengthBody (sv : SplitVector T) (t : Int) :
    (sv.GapTo t).lengthBody = sv.lengthBody := by
  unfold GapTo; split_ifs <;> rfl

@[simp]
theorem GapTo_gapLength (sv : SplitVector T) (t : Int) :
    (sv.GapTo t).gapLength = sv.gapLength := by
  unfold GapTo; split_ifs <;> rfl

@[simp]
theorem GapTo_growSize (sv : SplitVector T) (t : Int) :
    (sv.GapTo t).growSize = sv.growSize := by
  unfold GapTo; split_ifs <;> rfl

@[simp]
theorem GapTo_empty (sv : SplitVector T) (t : Int) :
    (sv.GapTo t).empty = sv.empty := by
  unfold GapTo; split_ifs <;> rfl

@[simp]
theorem GapTo_part1Length (sv : SplitVector T) (t : Int) :
    (sv.GapTo t).part1Length = t := by
  unfold GapTo; split_ifs with h1 h2
  · exact h1.symm
  · rfl
  · rfl

@[simp]
theorem GapTo_size (sv : SplitVector T) (t : Int) :
    (sv.GapTo t).size = sv.size := by
  unfold GapTo size; split_ifs <;> simp [length_copyWithin]

theorem GapTo_WF {sv : SplitVector T} (hWF : sv.WF) {t : Int}
    (ht0 : 0 ≤ t) (ht1 : t ≤ sv.lengthBody) : (sv.GapTo t).WF := by
  obtain ⟨hg, hp0, hp1, hl0, hls, hgrow⟩ := hWF
  refine ⟨?_, ?_, ?_, ?_, ?_, ?_⟩ <;> simp [*]

theorem ValueAt_neg {sv : SplitVector T} {p : Int} (hpart : 0 ≤ sv.part1Length)
    (hp : p < 0) : sv.ValueAt p = sv.empty := by
  unfold ValueAt
  rw [if_pos (by omega), if_pos hp]

theorem ValueAt_past_end {sv : SplitVector T} {p : Int}
    (hpart : sv.part1Length ≤ sv.lengthBody) (hp : sv.lengthBody ≤ p) :
    sv.ValueAt p = sv.empty := by
  unfold ValueAt
  split_ifs with h1 h2
  · rfl
  · exfalso; omega
  · rfl

theorem ValueAt_lt_part1 {sv : SplitVector T} {p : Int} (hp0 : 0 ≤ p)
    (hp : p < sv.part1Length) : sv.ValueAt p = sv.body.getD p.toNat default := by
  unfold ValueAt
  rw [if_pos hp, if_neg (by omega)]

theorem ValueAt_ge_part1 {sv : SplitVector T} {p : Int}
    (hp : sv.part1Length ≤ p) (hp1 : p < sv.lengthBody) :
    sv.ValueAt p = sv.body.getD (sv.gapLength + p).toNat default := by
  unfold ValueAt
  rw [if_neg (by omega), if_neg (by omega)]

/-- Moving the gap preserves every logical element. -/
theorem GapTo_ValueAt (sv : SplitVector T) (hWF : sv.WF) {t : Int}
    (ht0 : 0 ≤ t) (ht1 : t ≤ sv.lengthBody) (p : Int) :
    (sv.GapTo t).ValueAt p = sv.ValueAt p := by
  obtain ⟨hg, hp0, hp1, hl0, hls, hgrow⟩ := hWF
  have hgap : 0 ≤ sv.gapLength := by omega
  have hlen : (sv.body.length : Int) = sv.size := rfl
  rcases lt_or_le p 0 with hp | hp
  · rw [ValueAt_neg (by simpa using ht0) hp, ValueAt_neg hp0 hp, GapTo_empty]
  rcases le_or_lt sv.lengthBody p with hp2 | hp2
  · rw [ValueAt_past_end (by simp; omega) (by simp; omega),
      ValueAt_past_end hp1 hp2, GapTo_empty]
  -- 0 ≤ p < lengthBody
  unfold GapTo
  split_ifs with h1 h2
  · rfl
  · -- moving the gap towards the start: t < part1Length
    rcases lt_or_le p t with hpt | hpt
    · rw [ValueAt_lt_part1 hp (by simpa using hpt), ValueAt_lt_part1 hp (by omega)]
      simp only
      rw [getD_copyWithin_lt _ _ _ _ (by omega)]
    · rw [ValueAt_ge_part1 (p := p) (by simpa using hpt) (by simpa using hp2)]
      simp only
      rcases lt_or_le p sv.part1Length with hpp | hpp
      · rw [getD_copyWithin_mid _ _ _ _ (by omega) (by omega) (by omega),
          ValueAt_lt_part1 hp hpp]
        congr 1
        omega
      · rw [getD_copyWithin_ge _ _ _ _ (by omega), ValueAt_ge_part1 hpp hp2]
  · -- moving the gap towards the end: part1Length < t
    have h3 : sv.part1Length < t := by omega
    rcases lt_or_le p t with hpt | hpt
    · rw [ValueAt_lt_part1 hp (by simpa using hpt)]
      simp only
      rcases lt_or_le p sv.part1Length with hpp | hpp
      · rw [getD_copyWithin_lt _ _ _ _ (by omega), ValueAt_lt_part1 hp hpp]
      · rw [getD_copyWithin_mid _ _ _ _ (by omega) (by omega) (by omega),
          ValueAt_ge_part1 hpp hp2]
        congr 1
        omega
    · rw [ValueAt_ge_part1 (p := p) (by simpa using hpt) (by simpa using hp2)]
      simp only
      rw [getD_copyWithin_ge _ _ _ _ (by omega),
        ValueAt_ge_part1 (by omega) hp2]

end SplitVector

end GapModel

namespace GapModel

namespace SplitVector

variable {T : Type} [Inhabited T]

theorem growWhileAux_pos {f : Nat} {g l : Int} (h : 0 < g) :
    0 < growWhileAux f g l := by
  induction f generalizing g with
  | zero => exact h
  | succ n ih =>
    rw [growWhileAux]
    split_ifs with h1
    · exact ih (by omega)
    · exact h

theorem growWhile_pos {g l : Int} (h : 0 < g) : 0 < growWhile g l :=
  growWhileAux_pos h

@[simp]
theorem ReAllocate_lengthBody (sv : SplitVector T) (ns : Int) :
    (sv.ReAllocate ns).lengthBody = sv.lengthBody := by
  unfold ReAllocate; split_ifs <;> simp

@[simp]
theorem ReAllocate_empty (sv : SplitVector T) (ns : Int) :
    (sv.ReAllocate ns).empty = sv.empty := by
  unfold ReAllocate; split_ifs <;> simp

@[simp]
theorem ReAllocate_growSize (sv : SplitVector T) (ns : Int) :
    (sv.ReAllocate ns).growSize = sv.growSize := by
  unfold ReAllocate; split_ifs <;> simp

theorem ReAllocate_WF {sv : SplitVector T} (hWF : sv.WF) {ns : Int} :
    (sv.ReAllocate ns).WF := by
  obtain ⟨hg, hp0, hp1, hl0, hls, hgrow⟩ := hWF
  unfold ReAllocate
  split_ifs with h1 h2
  · exact ⟨hg, hp0, hp1, hl0, hls, hgrow⟩
  · have hsz := GapTo_size sv sv.lengthBody
    simp only [size] at hg hls hsz h2
    refine ⟨?_, ?_, ?_, ?_, ?_, ?_⟩ <;>
      simp only [size, List.length_append, List.length_replicate, GapTo_lengthBody,
        GapTo_gapLength, GapTo_part1Length, GapTo_growSize] <;>
      push_cast <;> omega
  · exact ⟨hg, hp0, hp1, hl0, hls, hgrow⟩

theorem ReAllocate_ValueAt {sv : SplitVector T} (hWF : sv.WF) (ns : Int)
    (p : Int) : (sv.ReAllocate ns).ValueAt p = sv.ValueAt p := by
  obtain ⟨hg, hp0, hp1, hl0, hls, hgrow⟩ := hWF
  unfold ReAllocate
  split_ifs with h1 h2
  · rfl
  · have hGv := GapTo_ValueAt sv ⟨hg, hp0, hp1, hl0, hls, hgrow⟩ hl0 le_rfl p
    have hsz := GapTo_size sv sv.lengthBody
    simp only [size] at hg hls hsz
    rw [← hGv]
    rcases lt_or_le p 0 with hp | hp
    · rw [ValueAt_neg (by simp; omega) hp, ValueAt_neg (by simp; omega) hp]
    rcases le_or_lt sv.lengthBody p with hp2 | hp2
    · rw [ValueAt_past_end (by simp) (by simp; omega),
        ValueAt_past_end (by simp) (by simp; omega)]
    · rw [@ValueAt_lt_part1 T _ (sv.GapTo sv.lengthBody) p hp (by simp; omega),
        ValueAt_lt_part1 hp (by simp; omega)]
      simp only
      rw [getD_append_left (by omega)]
  · rfl

theorem RoomFor_WF {sv : SplitVector T} (hWF : sv.WF) {il : Int} :
    (sv.RoomFor il).WF := by
  obtain ⟨hg, hp0, hp1, hl0, hls, hgrow⟩ := hWF
  unfold RoomFor
  split_ifs with h1
  · refine ReAllocate_WF ?_
    exact ⟨hg, hp0, hp1, hl0, hls, growWhile_pos hgrow⟩
  · exact ⟨hg, hp0, hp1, hl0, hls, hgrow⟩

@[simp]
theorem RoomFor_lengthBody (sv : SplitVector T) (il : Int) :
    (sv.RoomFor il).lengthBody = sv.lengthBody := by
  unfold RoomFor; split_ifs <;> simp

@[simp]
theorem RoomFor_empty (sv : SplitVector T) (il : Int) :
    (sv.RoomFor il).empty = sv.empty := by
  unfold RoomFor; split_ifs <;> simp

theorem RoomFor_ValueAt {sv : SplitVector T} (hWF : sv.WF) (il : Int)
    (p : Int) : (sv.RoomFor il).ValueAt p = sv.ValueAt p := by
  obtain ⟨hg, hp0, hp1, hl0, hls, hgrow⟩ := hWF
  unfold RoomFor
  split_ifs with h1
  · refine Eq.trans (ReAllocate_ValueAt ?_ _ p) rfl
    exact ⟨hg, hp0, hp1, hl0, hls, growWhile_pos hgrow⟩
  · rfl

/-- `ReAllocate` only ever grows the gap (by `newSize - size` when it grows
the store at all). -/
theorem ReAllocate_gapLength (sv : SplitVector T) (ns : Int) :
    (sv.ReAllocate ns).gapLength =
      if 0 ≤ ns ∧ sv.size < ns then sv.gapLength + (ns - sv.size)
      else sv.gapLength := by
  unfold ReAllocate
  split_ifs with h1 h2 h3 h4 h5
  · exfalso; omega
  · rfl
  · simp [GapTo_gapLength, GapTo_size]
  · exact absurd ⟨by omega, h3⟩ h4
  · exact absurd h5.2 h3
  · rfl

/-- After `RoomFor`, the gap is strictly larger than the insertion length
(for a positive insertion length on a well-formed state). -/
theorem RoomFor_gap {sv : SplitVector T} (hWF : sv.WF) {il : Int}
    (hil : 0 < il) : il < (sv.RoomFor il).gapLength := by
  obtain ⟨hg, hp0, hp1, hl0, hls, hgrow⟩ := hWF
  have hgw := growWhile_pos (l := sv.size / 6) hgrow
  simp only [RoomFor]
  split_ifs with h1
  · rw [ReAllocate_gapLength]
    simp only [size] at hg hls hgw ⊢
    split_ifs with h2
    · omega
    · exfalso
      simp only [not_and, not_lt] at h2
      omega
  · omega

end SplitVector

end GapModel

namespace GapModel

namespace SplitVector

variable {T : Type} [Inhabited T]

/-- The common tail of the four insertion operations: after the gap has been
moved to the insertion point, the written body together with the shifted
length/gap bookkeeping is again well-formed. -/
theorem shiftRecord_WF {X : SplitVector T} (hX : X.WF) {il : Int} (hil : 0 < il)
    (hgap : il < X.gapLength) {B : List T} (hB : B.length = X.body.length) :
    WF { X with
      body := B
      lengthBody := X.lengthBody + il
      part1Length := X.part1Length + il
      gapLength := X.gapLength - il } := by
  obtain ⟨hg, hp0, hp1, hl0, hls, hgrow⟩ := hX
  simp only [size] at hg hls
  refine ⟨?_, ?_, ?_, ?_, ?_, ?_⟩ <;> simp only [size, hB] <;> omega

theorem Insert_WF {sv : SplitVector T} (hWF : sv.WF) (p : Int) (v : T) :
    (sv.Insert p v).WF := by
  unfold Insert
  split_ifs with h1
  · exact hWF
  · have hp0 : 0 ≤ p := by omega
    have hp1 : p ≤ sv.lengthBody := by omega
    have hWF2 : ((sv.RoomFor 1).GapTo p).WF :=
      GapTo_WF (RoomFor_WF hWF) hp0 (by rw [RoomFor_lengthBody]; exact hp1)
    have hgap : (1 : Int) < ((sv.RoomFor 1).GapTo p).gapLength := by
      rw [GapTo_gapLength]; exact RoomFor_gap hWF one_pos
    exact shiftRecord_WF hWF2 one_pos hgap (by simp)

theorem InsertValue_WF {sv : SplitVector T} (hWF : sv.WF) (p n : Int) (v : T) :
    (sv.InsertValue p n v).WF := by
  unfold InsertValue
  split_ifs with h1 h2
  · exact hWF
  · have hp0 : 0 ≤ p := by omega
    have hp1 : p ≤ sv.lengthBody := by omega
    have hWF2 : ((sv.RoomFor n).GapTo p).WF :=
      GapTo_WF (RoomFor_WF hWF) hp0 (by rw [RoomFor_lengthBody]; exact hp1)
    have hgap : n < ((sv.RoomFor n).GapTo p).gapLength := by
      rw [GapTo_gapLength]; exact RoomFor_gap hWF h1
    exact shiftRecord_WF hWF2 h1 hgap (by rw [length_setRange])
  · exact hWF

theorem InsertEmpty_WF {sv : SplitVector T} (hWF : sv.WF) (p n : Int) :
    (sv.InsertEmpty p n).WF := by
  unfold InsertEmpty
  split_ifs with h1 h2
  · exact hWF
  · have hp0 : 0 ≤ p := by omega
    have hp1 : p ≤ sv.lengthBody := by omega
    have hWF2 : ((sv.RoomFor n).GapTo p).WF :=
      GapTo_WF (RoomFor_WF hWF) hp0 (by rw [RoomFor_lengthBody]; exact hp1)
    have hgap : n < ((sv.RoomFor n).GapTo p).gapLength := by
      rw [GapTo_gapLength]; exact RoomFor_gap hWF h1
    exact shiftRecord_WF hWF2 h1 hgap (by rw [length_setRange])
  · exact hWF

theorem InsertFromArray_WF {sv : SplitVector T} (hWF : sv.WF) (p : Int)
    (s : List T) (f n : Int) : (sv.InsertFromArray p s f n).WF := by
  unfold InsertFromArray
  split_ifs with h1 h2
  · exact hWF
  · have hp0 : 0 ≤ p := by omega
    have hp1 : p ≤ sv.lengthBody := by omega
    have hWF2 : ((sv.RoomFor n).GapTo p).WF :=
      GapTo_WF (RoomFor_WF hWF) hp0 (by rw [RoomFor_lengthBody]; exact hp1)
    have hgap : n < ((sv.RoomFor n).GapTo p).gapLength := by
      rw [GapTo_gapLength]; exact RoomFor_gap hWF h1
    exact shiftRecord_WF hWF2 h1 hgap (by rw [length_setRange])
  · exact hWF

theorem Init_WF (sv : SplitVector T) : (sv.Init).WF := by
  refine ⟨?_, ?_, ?_, ?_, ?_, ?_⟩ <;> norm_num [Init, size]

theorem DeleteRange_WF {sv : SplitVector T} (hWF : sv.WF) (p d : Int) :
    (sv.DeleteRange p d).WF := by
  obtain ⟨hg, hp0, hp1, hl0, hls, hgrow⟩ := hWF
  unfold DeleteRange
  split_ifs with h1 h2 h3
  · exact ⟨hg, hp0, hp1, hl0, hls, hgrow⟩
  · exact Init_WF sv
  · have hq0 : 0 ≤ p := by omega
    have hq1 : p ≤ sv.lengthBody := by omega
    have hsz := GapTo_size sv p
    simp only [size] at hg hls hsz
    refine ⟨?_, ?_, ?_, ?_, ?_, ?_⟩ <;>
      simp only [size, GapTo_lengthBody, GapTo_gapLength, GapTo_part1Length,
        GapTo_growSize] <;>
      omega
  · exact ⟨hg, hp0, hp1, hl0, hls, hgrow⟩

theorem applyOp_WF {sv : SplitVector T} (hWF : sv.WF) (o : Op T) :
    (sv.applyOp o).WF := by
  cases o with
  | ins p v => exact Insert_WF hWF p v
  | insValue p n v => exact InsertValue_WF hWF p n v
  | insFromArray p s f n => exact InsertFromArray_WF hWF p s f n
  | insEmpty p n => exact InsertEmpty_WF hWF p n
  | delRange p d => exact DeleteRange_WF hWF p d

theorem applyOps_WF {sv : SplitVector T} (hWF : sv.WF) (ops : List (Op T)) :
    (sv.applyOps ops).WF := by
  induction ops generalizing sv with
  | nil => exact hWF
  | cons o os ih => exact ih (applyOp_WF hWF o)

theorem mkEmpty_WF : (mkEmpty T).WF := by
  refine ⟨?_, ?_, ?_, ?_, ?_, ?_⟩ <;> norm_num [mkEmpty, size]

end SplitVector

/-- C2: after any finite sequence of `Insert`, `InsertValue`,
`InsertFromArray`, `InsertEmpty` and `DeleteRange` operations starting from an
empty buffer, the gap invariant holds: `gapLength` equals the capacity
(`body.size()`) minus the length (`lengthBody`), and the gap start position
(`part1Length`) satisfies `0 ≤ part1Length ≤ lengthBody`. -/
theorem c2_gap_invariant (T : Type) [Inhabited T] (ops : List (SplitVector.Op T)) :
    ((SplitVector.mkEmpty T).applyOps ops).gapLength =
        ((SplitVector.mkEmpty T).applyOps ops).size -
          ((SplitVector.mkEmpty T).applyOps ops).lengthBody ∧
      0 ≤ ((SplitVector.mkEmpty T).applyOps ops).part1Length ∧
      ((SplitVector.mkEmpty T).applyOps ops).part1Length ≤
        ((SplitVector.mkEmpty T).applyOps ops).lengthBody := by
  obtain ⟨h1, h2, h3, -, -, -⟩ :=
    SplitVector.applyOps_WF (SplitVector.mkEmpty_WF) ops
  exact ⟨h1, h2, h3⟩

end GapModel

namespace GapModel

namespace SplitVector

variable {T : Type} [Inhabited T]

theorem SetValueAt_roundtrip {sv : SplitVector T} (hWF : sv.WF) {p : Int}
    (v : T) (h0 : 0 ≤ p) (h1 : p < sv.lengthBody) :
    (sv.SetValueAt p v).ValueAt p = v := by
  obtain ⟨hg, hp0, hp1, hl0, hls, hgrow⟩ := hWF
  simp only [size] at hg hls
  unfold SetValueAt
  split_ifs with hb1 hb2 hb3
  · exact absurd hb2 (by omega)
  · simp only [ValueAt]
    rw [if_pos hb1, if_neg (by omega), getD_set_self (by omega)]
  · exact absurd hb3 (by omega)
  · simp only [ValueAt]
    rw [if_neg hb1, if_neg hb3, getD_set_self (by omega)]

end SplitVector

/-- C3: on a well-formed buffer, writing `v` at an in-range position `p` and
reading `p` back returns `v`; reading any position outside `[0, lengthBody)`
returns the `empty` sentinel (and, the model being total, never faults). -/
theorem c3_roundtrip_sentinel {T : Type} [Inhabited T] (sv : SplitVector T)
    (hWF : sv.WF) :
    (∀ p v, 0 ≤ p → p < sv.lengthBody → (sv.SetValueAt p v).ValueAt p = v) ∧
    (∀ p, p < 0 ∨ sv.lengthBody ≤ p → sv.ValueAt p = sv.empty) := by
  obtain ⟨hg, hp0, hp1, hl0, hls, hgrow⟩ := hWF
  constructor
  · intro p v h0 h1
    exact SplitVector.SetValueAt_roundtrip ⟨hg, hp0, hp1, hl0, hls, hgrow⟩ v h0 h1
  · intro p hp
    rcases hp with hp | hp
    · exact SplitVector.ValueAt_neg hp0 hp
    · exact SplitVector.ValueAt_past_end hp1 hp

/-- Witness for C3 at a concrete one-element buffer. -/
theorem c3_witness :
    ((SplitVector.mkEmpty Int).Insert 0 3).WF ∧
    (((SplitVector.mkEmpty Int).Insert 0 3).SetValueAt 0 5).ValueAt 0 = 5 ∧
    ((SplitVector.mkEmpty Int).Insert 0 3).ValueAt 9 =
      ((SplitVector.mkEmpty Int).Insert 0 3).empty :=
  ⟨by decide,
    (c3_roundtrip_sentinel _ (by decide)).1 0 5 (by decide) (by decide),
    (c3_roundtrip_sentinel _ (by decide)).2 9 (Or.inr (by decide))⟩

/-- C4: an insertion called with a position outside `[0, lengthBody]`, or a
deletion whose range is not contained in `[0, lengthBody)`, returns the buffer
completely unchanged (length, contents, gap position and capacity). -/
theorem c4_out_of_range_noop {T : Type} [Inhabited T] (sv : SplitVector T) :
    (∀ p v, p < 0 ∨ sv.lengthBody < p → sv.Insert p v = sv) ∧
    (∀ p n v, p < 0 ∨ sv.lengthBody < p → sv.InsertValue p n v = sv) ∧
    (∀ p s f n, p < 0 ∨ sv.lengthBody < p → sv.InsertFromArray p s f n = sv) ∧
    (∀ p n, p < 0 ∨ sv.lengthBody < p → sv.InsertEmpty p n = sv) ∧
    (∀ p d, p < 0 ∨ sv.lengthBody < p + d → sv.DeleteRange p d = sv) := by
  refine ⟨?_, ?_, ?_, ?_, ?_⟩
  · intro p v h
    unfold SplitVector.Insert
    rw [if_pos h]
  · intro p n v h
    unfold SplitVector.InsertValue
    split_ifs <;> rfl
  · intro p s f n h
    unfold SplitVector.InsertFromArray
    split_ifs <;> rfl
  · intro p n h
    unfold SplitVector.InsertEmpty
    split_ifs <;> rfl
  · intro p d h
    unfold SplitVector.DeleteRange
    rw [if_pos h]

/-- Witness for C4 on the empty buffer. -/
theorem c4_witness :
    (SplitVector.mkEmpty Int).Insert (-1) 7 = SplitVector.mkEmpty Int ∧
    (SplitVector.mkEmpty Int).DeleteRange 0 5 = SplitVector.mkEmpty Int :=
  ⟨(c4_out_of_range_noop _).1 (-1) 7 (Or.inl (by decide)),
    (c4_out_of_range_noop _).2.2.2.2 0 5 (Or.inr (by decide))⟩

/-- C10: moving the gap (directly via `GapTo`, or through the relocation
`RangePointer` performs when a requested range straddles the gap) changes
neither the logical sequence nor the logical length; only `part1Length`
moves. -/
theorem c10_gapTo_frame {T : Type} [Inhabited T] (sv : SplitVector T)
    (hWF : sv.WF) (t : Int) (h0 : 0 ≤ t) (h1 : t ≤ sv.lengthBody) :
    (∀ p, 0 ≤ p → p < sv.lengthBody → (sv.GapTo t).ValueAt p = sv.ValueAt p) ∧
    (sv.GapTo t).lengthBody = sv.lengthBody ∧
    (sv.GapTo t).gapLength = sv.gapLength ∧
    (sv.GapTo t).part1Length = t ∧
    (∀ rl p, (sv.RangePointer t rl).ValueAt p = sv.ValueAt p) ∧
    (∀ rl, (sv.RangePointer t rl).lengthBody = sv.lengthBody) := by
  refine ⟨fun p _ _ => SplitVector.GapTo_ValueAt sv hWF h0 h1 p,
    SplitVector.GapTo_lengthBody .., SplitVector.GapTo_gapLength ..,
    SplitVector.GapTo_part1Length .., ?_, ?_⟩
  · intro rl p
    unfold SplitVector.RangePointer
    split_ifs with a b
    · exact SplitVector.GapTo_ValueAt sv hWF h0 h1 p
    · rfl
    · rfl
  · intro rl
    unfold SplitVector.RangePointer
    split_ifs <;> simp

/-- Witness for C10 at a concrete two-element buffer with the gap moved from
position 2 to position 0. -/
theorem c10_witness :
    (((SplitVector.mkEmpty Int).Insert 0 1).Insert 1 2).WF ∧
    ((((SplitVector.mkEmpty Int).Insert 0 1).Insert 1 2).GapTo 0).ValueAt 1 =
      (((SplitVector.mkEmpty Int).Insert 0 1).Insert 1 2).ValueAt 1 :=
  ⟨by decide,
    (c10_gapTo_frame _ (by decide) 0 (by decide) (by decide)).1 1 (by decide)
      (by decide)⟩

end GapModel

namespace GapModel

theorem getD_idx_congr (l : List T) (d : T) {i j : Nat} (h : i = j) :
    l.getD i d = l.getD j d := by rw [h]

namespace SplitVector

variable {T : Type} [Inhabited T]

/-- Behaviour of `DeleteRange` on a valid range: the logical length shrinks by
`deleteLength`, elements before the range are unchanged, and elements from the
range position onwards are shifted down by `deleteLength`. -/
theorem DeleteRange_spec {sv : SplitVector T} (hWF : sv.WF) {p d : Int}
    (hp0 : 0 ≤ p) (hd : 0 ≤ d) (hpd : p + d ≤ sv.lengthBody) :
    (sv.DeleteRange p d).lengthBody = sv.lengthBody - d ∧
    (∀ q, q < p → (sv.DeleteRange p d).ValueAt q = sv.ValueAt q) ∧
    (∀ q, p ≤ q → (sv.DeleteRange p d).ValueAt q = sv.ValueAt (q + d)) := by
  obtain ⟨hg, hq0, hq1, hl0, hls, hgrow⟩ := hWF
  have hXv : ∀ q, (sv.GapTo p).ValueAt q = sv.ValueAt q :=
    GapTo_ValueAt sv ⟨hg, hq0, hq1, hl0, hls, hgrow⟩ hp0 (by omega)
  unfold DeleteRange
  split_ifs with h1 h2 h3
  · exfalso; omega
  · obtain ⟨rfl, rfl⟩ := h2
    refine ⟨by simp [Init], ?_, ?_⟩
    · intro q hq
      rw [@ValueAt_neg T _ sv.Init q (by norm_num [Init]) (by omega),
        ValueAt_neg hq0 (by omega)]
      rfl
    · intro q hq
      rw [@ValueAt_past_end T _ sv.Init q (by norm_num [Init])
          (by simp only [Init]; omega),
        ValueAt_past_end hq1 (by omega)]
      rfl
  · refine ⟨by simp, ?_, ?_⟩
    · intro q hq
      rw [← hXv q]
      simp only [ValueAt, GapTo_part1Length, GapTo_gapLength, GapTo_lengthBody,
        GapTo_empty]
      split_ifs <;>
        first
          | rfl
          | (exfalso; omega)
          | (exact getD_idx_congr _ _ (by omega))
    · intro q hq
      rw [← hXv (q + d)]
      simp only [ValueAt, GapTo_part1Length, GapTo_gapLength, GapTo_lengthBody,
        GapTo_empty]
      split_ifs <;>
        first
          | rfl
          | (exfalso; omega)
          | (exact getD_idx_congr _ _ (by omega))
  · have hd0 : d = 0 := by omega
    subst hd0
    exact ⟨by omega, fun q _ => rfl, fun q _ => by rw [add_zero]⟩

/-- Behaviour of `InsertFromArray` inserting a whole list `s` at a valid
position: the length grows by `s.length`, elements before the position are
unchanged, and elements past the inserted block are the old elements shifted
up by `s.length`. -/
theorem InsertFromArray_full_spec {sv : SplitVector T} (hWF : sv.WF) {p : Int}
    (hp0 : 0 ≤ p) (hp1 : p ≤ sv.lengthBody) (s : List T) (hs : s ≠ []) :
    (sv.InsertFromArray p s 0 (s.length : Int)).lengthBody
        = sv.lengthBody + (s.length : Int) ∧
    (∀ q, q < p →
      (sv.InsertFromArray p s 0 (s.length : Int)).ValueAt q = sv.ValueAt q) ∧
    (∀ q, p + (s.length : Int) ≤ q →
      (sv.InsertFromArray p s 0 (s.length : Int)).ValueAt q
        = sv.ValueAt (q - (s.length : Int))) ∧
    (sv.InsertFromArray p s 0 (s.length : Int)).WF := by
  have hm : (0 : Int) < (s.length : Int) := by
    exact_mod_cast List.length_pos.mpr hs
  have hWFX : ((sv.RoomFor (s.length : Int)).GapTo p).WF :=
    GapTo_WF (RoomFor_WF hWF) hp0 (by rw [RoomFor_lengthBody]; exact hp1)
  have hgap : (s.length : Int) < (sv.RoomFor (s.length : Int)).gapLength :=
    RoomFor_gap hWF hm
  have hXv : ∀ q,
      ((sv.RoomFor (s.length : Int)).GapTo p).ValueAt q = sv.ValueAt q := by
    intro q
    rw [GapTo_ValueAt _ (RoomFor_WF hWF) hp0
        (by rw [RoomFor_lengthBody]; exact hp1) q,
      RoomFor_ValueAt hWF]
  have hWFr : (sv.InsertFromArray p s 0 (s.length : Int)).WF :=
    InsertFromArray_WF hWF p s 0 (s.length : Int)
  obtain ⟨hg, hq0, hq1, hl0, hls, hgrow⟩ := hWF
  unfold InsertFromArray at hWFr ⊢
  rw [if_pos hm, if_neg (by omega)] at hWFr ⊢
  simp only [Int.toNat_zero, List.drop_zero, Int.toNat_natCast, List.take_length,
    GapTo_part1Length, GapTo_lengthBody, GapTo_gapLength, GapTo_empty,
    RoomFor_lengthBody, RoomFor_empty] at hWFr ⊢
  refine ⟨by simp, ?_, ?_, hWFr⟩
  · intro q hq
    rw [← hXv q]
    simp only [ValueAt, GapTo_part1Length, GapTo_gapLength, GapTo_lengthBody,
      GapTo_empty, RoomFor_lengthBody, RoomFor_empty]
    split_ifs <;>
      first
        | rfl
        | (exfalso; omega)
        | (rw [getD_setRange_lt _ _ _ (by omega)])
        | (rw [getD_setRange_ge _ _ _ (by simp only [List.length_take]; omega)];
            exact getD_idx_congr _ _ (by omega))
  · intro q hq
    rw [← hXv (q - (s.length : Int))]
    simp only [ValueAt, GapTo_part1Length, GapTo_gapLength, GapTo_lengthBody,
      GapTo_empty, RoomFor_lengthBody, RoomFor_empty]
    split_ifs <;>
      first
        | rfl
        | (exfalso; omega)
        | (rw [getD_setRange_ge _ _ _ (by omega)];
            exact getD_idx_congr _ _ (by omega))

end SplitVector

/-- C9: inserting a sequence `s` at a valid position `p` of a well-formed
buffer and then deleting the range `[p, p + s.length)` restores the original
logical contents exactly: the length and every `ValueAt` are unchanged. -/
theorem c9_insert_delete_inverse {T : Type} [Inhabited T] (sv : SplitVector T)
    (hWF : sv.WF) (p : Int) (hp0 : 0 ≤ p) (hp1 : p ≤ sv.lengthBody)
    (s : List T) :
    ((sv.InsertFromArray p s 0 (s.length : Int)).DeleteRange p
        (s.length : Int)).lengthBody = sv.lengthBody ∧
    ∀ q, ((sv.InsertFromArray p s 0 (s.length : Int)).DeleteRange p
        (s.length : Int)).ValueAt q = sv.ValueAt q := by
  rcases eq_or_ne s [] with rfl | hs
  · simp only [List.length_nil, Nat.cast_zero]
    have hins : sv.InsertFromArray p [] 0 0 = sv := by
      unfold SplitVector.InsertFromArray
      rw [if_neg (by omega)]
    rw [hins]
    obtain ⟨hg, hq0, hq1, hl0, hls, hgrow⟩ := hWF
    unfold SplitVector.DeleteRange
    split_ifs with h1 h2 h3
    · exfalso; omega
    · obtain ⟨rfl, hlen0⟩ := h2
      constructor
      · simp only [SplitVector.Init]; omega
      · intro q
        rcases lt_or_le q 0 with hq | hq
        · rw [@SplitVector.ValueAt_neg T _ sv.Init q
              (by norm_num [SplitVector.Init]) hq,
            SplitVector.ValueAt_neg hq0 hq]
          rfl
        · rw [@SplitVector.ValueAt_past_end T _ sv.Init q
              (by norm_num [SplitVector.Init])
              (by simp only [SplitVector.Init]; omega),
            SplitVector.ValueAt_past_end hq1 (by omega)]
          rfl
    · exfalso; omega
    · exact ⟨rfl, fun q => rfl⟩
  · have hm : (0 : Int) < (s.length : Int) := by
      exact_mod_cast List.length_pos.mpr hs
    obtain ⟨hlen, hlt, hge, hWF2⟩ :=
      SplitVector.InsertFromArray_full_spec hWF hp0 hp1 s hs
    obtain ⟨dlen, dlt, dge⟩ :=
      SplitVector.DeleteRange_spec hWF2 hp0 (le_of_lt hm) (by rw [hlen]; omega)
    constructor
    · rw [dlen, hlen]; ring
    · intro q
      rcases lt_or_le q p with hq | hq
      · rw [dlt q hq, hlt q hq]
      · rw [dge q hq, hge (q + (s.length : Int)) (by omega)]
        congr 1
        ring

/-- Witness for C9: inserting `[7, 8]` at position 1 of a two-element buffer
and deleting it again restores the original element at position 1. -/
theorem c9_witness :
    (((SplitVector.mkEmpty Int).Insert 0 1).Insert 1 2).WF ∧
    (((((SplitVector.mkEmpty Int).Insert 0 1).Insert 1 2).InsertFromArray 1
        [7, 8] 0 2).DeleteRange 1 2).ValueAt 1 =
      (((SplitVector.mkEmpty Int).Insert 0 1).Insert 1 2).ValueAt 1 :=
  ⟨by decide,
    (c9_insert_delete_inverse _ (by decide) 1 (by decide) (by decide) [7, 8]).2 1⟩

end GapModel

/-!
Part 2 models `ColouriseRDoc` and `FoldSimpleDoc` from
`src/scintilla/lexers/LexR.cxx`.  The document is a `List Char`, scanned by a
state machine whose state mirrors the `StyleContext` cursor together with the
function-local variables of `ColouriseRDoc`.  `StyleContext` / `LexAccessor` /
`CharacterSet` are not part of the excerpt, so the cursor seam is modelled
from the spec (ScanCursor, section 4.2): reads past the end of the document
return `'\x00'` (as `LexAccessor::operator[]` does), lines are delimited by a
single `'\n'`, `setState` commits the pending run with its old style,
`changeState` retroactively recolours the pending run.
-/

namespace RLex

/-- The style identifiers (`SCE_R_*`) used by the R lexer.  In SciLexer.h the
two raw-string styles carry the largest numeric values, which is what the
`state >= SCE_R_RAWSTRING_SQ` test of `IsRawString` exploits; the model tests
the two constructors directly. -/
inductive RStyle where
  | Default
  | Comment
  | Number
  | Keyword
  | StringSQ
  | StringDQ
  | Operator
  | Identifier
  | InfixOp
  | Backticks
  | RawStringSQ
  | RawStringDQ
  | EscapeChar
  | FormatSpecifier
  | Directive
  | Function
  deriving DecidableEq, Repr

/-- Character of the document at `p`; `'\x00'` past the end, exactly like
`LexAccessor::operator[]` outside the buffered range. -/
def chAt (doc : List Char) (p : Nat) : Char := doc.getD p '\x00'

/-- `sc.chPrev`: the character before `p` (0 at the start of the document). -/
def chPrevAt (doc : List Char) (p : Nat) : Char :=
  if p = 0 then '\x00' else chAt doc (p - 1)

def isADigit (c : Char) : Bool := 48 ≤ c.toNat && c.toNat ≤ 57

def isHexDigit (c : Char) : Bool :=
  isADigit c || (65 ≤ c.toNat && c.toNat ≤ 70) || (97 ≤ c.toNat && c.toNat ≤ 102)

/-- `IsOctalDigit` from CharacterSet.h. -/
def isOctalDigit (c : Char) : Bool := 48 ≤ c.toNat && c.toNat ≤ 55

/-- `IsOctalOrHex(ch, hex)` from CharacterSet.h. -/
def isOctalOrHex (c : Char) (hex : Bool) : Bool :=
  if hex then isHexDigit c else isOctalDigit c

def isLowerCase (c : Char) : Bool := 97 ≤ c.toNat && c.toNat ≤ 122

def isUpperCase (c : Char) : Bool := 65 ≤ c.toNat && c.toNat ≤ 90

def isAlpha (c : Char) : Bool := isLowerCase c || isUpperCase c

def isAlphaNumeric (c : Char) : Bool := isAlpha c || isADigit c

/-- `IsAGraphic`: a printable character other than space. -/
def isAGraphic (c : Char) : Bool := 33 ≤ c.toNat && c.toNat ≤ 126

/-- C `isspacechar`: space or one of HT LF VT FF CR. -/
def isSpaceChar (c : Char) : Bool := c.toNat = 32 || (9 ≤ c.toNat && c.toNat ≤ 13)

def isASpaceOrTab (c : Char) : Bool := c.toNat = 32 || c.toNat = 9

/-- Modelled from the spec ("an identifier-start character"): ASCII letter,
underscore, or any byte above 0x7F (`IsIdentifierStartEx`, CharacterSet.h not
in the excerpt). -/
def isIdentifierStartEx (c : Char) : Bool :=
  isAlpha c || c = '_' || 127 < c.toNat

/-- Modelled from the spec ("continues while the character is a valid
identifier character"): letter, digit, underscore, or any byte above 0x7F
(`IsIdentifierCharEx`). -/
def isIdentifierCharEx (c : Char) : Bool :=
  isAlphaNumeric c || c = '_' || 127 < c.toNat

/-- Modelled from the spec ("a digit or a decimal point followed by a digit"):
`IsNumberStartEx` (CharacterSet.h not in the excerpt). -/
def isNumberStartEx (chPrev c chNext : Char) : Bool :=
  isADigit c || (c = '.' && isADigit chNext)

/-- Modelled from the spec ("digits, one decimal point, exponent marker, sign,
hex/suffix markers"): `IsDecimalNumberEx` accepts identifier characters, the
decimal point, and a sign that directly follows an exponent marker. -/
def isDecimalNumberEx (chPrev c chNext : Char) : Bool :=
  isIdentifierCharEx c || c = '.' ||
    ((c = '+' || c = '-') &&
      (chPrev = 'e' || chPrev = 'E' || chPrev = 'p' || chPrev = 'P'))

/-- Modelled from the spec (URL detection inside strings): characters that end
a URL (`IsInvalidUrlChar`): controls, space, and a few delimiters. -/
def isInvalidUrlChar (c : Char) : Bool :=
  c.toNat ≤ 32 || c = '"' || c = '<' || c = '>' || c = '\\' || c = '^' ||
    c.toNat = 96 || c = '{' || c = '|' || c = '}' || c.toNat = 127

/-- `IsFormatSpecifier` from LexR.cxx: the conversion letters accepted at the
end of a format specifier. -/
def isFormatSpecifierChar (c : Char) : Bool :=
  c = 'a' || c = 'A' || c = 'c' || c = 'd' || c = 'e' || c = 'E' || c = 'f' ||
    c = 'F' || c = 'g' || c = 'G' || c = 'i' || c = 'o' || c = 's' ||
    c = 'u' || c = 'x' || c = 'X'

/-- `IsRawString(state)` from LexR.cxx. -/
def isRawString (st : RStyle) : Bool :=
  st = .RawStringSQ || st = .RawStringDQ

/-- `GetStringQuote(state)` from LexR.cxx, as a character code (96 is the
backtick). -/
def stringQuote (st : RStyle) : Nat :=
  if st = .Backticks then 96 else if st = .StringSQ then 39 else 34

/-- The quote that closes a raw string of the given flavour
(`(sc.state == SCE_R_RAWSTRING_SQ) ? '\'' : '\"'`). -/
def rawQuote (st : RStyle) : Nat := if st = .RawStringSQ then 39 else 34

/-- `EscapeSequence::resetEscapeState` from LexR.cxx: number of characters
left to consume and whether they are hex digits, selected by the character
after the backslash. -/
def resetEscapeDigits (chNext : Char) : Int × Bool :=
  if chNext = 'x' then (3, true)
  else if chNext = 'u' then (5, true)
  else if chNext = 'U' then (9, true)
  else if isOctalDigit chNext then (3, false)
  else (1, true)

/-- Modelled from the spec (Accessor seam, `LineStart`): the position just
after the next `'\n'` at or after `pos`, or the end of the document. -/
def lineStartNextAux (doc : List Char) : Nat → Nat → Nat
  | 0, pos => pos
  | fuel + 1, pos =>
    if chAt doc pos = '\n' then pos + 1 else lineStartNextAux doc fuel (pos + 1)

def lineStartNextFrom (doc : List Char) (pos : Nat) : Nat :=
  lineStartNextAux doc (doc.length - pos) pos

/-- The scanning loop of `CheckRawString` from LexR.cxx: walk from the
character after the quote, counting dashes, until a bracket (returning its
matching closing bracket code) or any other character or the end of the line
(returning 0). -/
def checkRawStringAux (doc : List Char) : Nat → Nat → Nat → Nat × Nat
  | 0, _, _ => (0, 0)
  | fuel + 1, pos, dashes =>
    let c := chAt doc pos
    if c = '-' then checkRawStringAux doc fuel (pos + 1) (dashes + 1)
    else if c = '(' then (41, dashes)
    else if c = '[' then (93, dashes)
    else if c = '{' then (125, dashes)
    else (0, 0)

/-- `CheckRawString(sc, dashCount)`: probe from `currentPos + 2` up to the
next line start; returns the matching delimiter code (0 for no match) and the
dash count. -/
def checkRawString (doc : List Char) (pos lineStartNext : Nat) : Nat × Nat :=
  checkRawStringAux doc (lineStartNext - (pos + 2)) (pos + 2) 0

/-- `while (IsADigit(ch)) ch = styler[++pos];` -/
def skipDigits (doc : List Char) : Nat → Nat → Nat
  | 0, pos => pos
  | fuel + 1, pos =>
    if isADigit (chAt doc pos) then skipDigits doc fuel (pos + 1) else pos

/-- `while (AnyOf(ch, '-', '+', ' ', '#', '0')) ch = styler[++pos];` -/
def skipFlags (doc : List Char) : Nat → Nat → Nat
  | 0, pos => pos
  | fuel + 1, pos =>
    let c := chAt doc pos
    if c = '-' || c = '+' || c = ' ' || c = '#' || c = '0' then
      skipFlags doc fuel (pos + 1)
    else pos

/-- One round of the width/precision loop of `CheckFormatSpecifier`:
`*`-indirection, digits, and `$` after an indirected width. -/
def fsRound (doc : List Char) (p : Nat) : Nat :=
  let argument := chAt doc p = '*'
  let pa := if argument then p + 1 else p
  let pb := skipDigits doc (doc.length + 1) pa
  if argument && chAt doc pb = '$' then pb + 1 else pb

/-- `CheckFormatSpecifier` from LexR.cxx; `pos` is the position of the `%`.
Returns the length of the specifier (0 when there is none). -/
def checkFormatSpecifier (doc : List Char) (pos : Nat) (insideUrl : Bool) :
    Nat :=
  let chNext := chAt doc (pos + 1)
  if chNext = '%' then 2
  else if insideUrl && isHexDigit chNext then 0
  else if isASpaceOrTab chNext && isADigit (chPrevAt doc pos) then 0
  else
    let p1 := skipDigits doc (doc.length + 1) (pos + 1)
    let p2 := if chAt doc p1 = '$' then p1 + 1 else p1
    let p3 := skipFlags doc (doc.length + 1) p2
    let p4 := fsRound doc p3
    let p5 := if chAt doc p4 = '.' then fsRound doc (p4 + 1) else p4
    if isFormatSpecifierChar (chAt doc p5) then p5 - pos + 1 else 0

/-- `sc.Match("...")`: the document contains the given characters at `pos`. -/
def matchWord (doc : List Char) : Nat → List Char → Bool
  | _, [] => true
  | pos, c :: cs => chAt doc pos = c && matchWord doc (pos + 1) cs

/-- Modelled from the spec (ScanCursor): `atLineStart` — at position 0 or
right after a `'\n'`. -/
def atLineStart (doc : List Char) (p : Nat) : Bool :=
  p = 0 || chAt doc (p - 1) = '\n'

/-- Modelled from the spec (ScanCursor): `atLineEnd` — on the `'\n'` that
ends a line, or on the final character of a document without a trailing
newline. -/
def atLineEnd (doc : List Char) (p : Nat) : Bool :=
  chAt doc p = '\n' || p + 1 = doc.length

/-- Modelled from the spec (ScanCursor): `MatchLineEnd` — at a `'\n'` or past
the end of the document. -/
def matchLineEnd (doc : List Char) (p : Nat) : Bool :=
  doc.length ≤ p || chAt doc p = '\n'

/-- Modelled from the spec: `GetLineNextChar` returns "the character
immediately after the identifier (skipping no whitespace)", i.e. the current
character. -/
def getLineNextChar (doc : List Char) (p : Nat) : Char := chAt doc p

/-- `lineStateLineComment | (matchingDelimiter << 1) | (dashCount << 8)` —
the line-state packing at the end of `ColouriseRDoc`'s loop
(`SimpleLineStateMaskLineComment` is bit 0). -/
def packLineState (lc : Bool) (md dc : Nat) : Nat :=
  (if lc then 1 else 0) ||| (md <<< 1) ||| (dc <<< 8)

/-- The scanner state: the cursor (`pos`), the current `StyleContext` style
(`state`), the pending run `[startSeg, pos)` and the styles already committed
before `startSeg`, the line states stored so far, and the locals of
`ColouriseRDoc` (`lineStateLineComment`, `chBeforeIdentifier`, `visibleChars`,
`insideUrl`, `matchingDelimiter`, `dashCount`, and the `EscapeSequence`
fields). -/
structure RScan where
  pos : Nat
  state : RStyle
  startSeg : Nat
  styles : List RStyle
  lineStates : List Nat
  lineStateLineComment : Bool
  chBeforeIdentifier : Char
  visibleChars : Bool
  insideUrl : Bool
  matchingDelimiter : Nat
  dashCount : Nat
  escOuter : RStyle
  escDigits : Int
  escHex : Bool
  escBrace : Bool
  deriving DecidableEq, Repr

/-- Commit the pending run `[startSeg, min pos len)` with the current state
(the write part of `StyleContext::SetState`, clipped to the document like
`LexAccessor::ColourTo`). -/
def commitTo (doc : List Char) (s : RScan) : RScan :=
  { s with
    styles := s.styles ++ List.replicate (min s.pos doc.length - s.startSeg) s.state
    startSeg := min s.pos doc.length }

/-- `sc.SetState(st)`. -/
def setState (doc : List Char) (st : RStyle) (s : RScan) : RScan :=
  { commitTo doc s with state := st }

/-- `sc.ForwardSetState(st)`. -/
def forwardSetState (doc : List Char) (st : RStyle) (s : RScan) : RScan :=
  setState doc st { s with pos := s.pos + 1 }

/-- `sc.ChangeState(st)`: retroactively recolour the pending run. -/
def changeState (st : RStyle) (s : RScan) : RScan := { s with state := st }

/-- The dash-matching loop of the raw-string terminator check:
`while (count != 0 && sc.ch == '-') { --count; sc.Forward(); }`.
Returns the remaining count and the new position. -/
def eatDashes (doc : List Char) : Nat → Nat → Nat × Nat
  | 0, pos => (0, pos)
  | count + 1, pos =>
    if chAt doc pos = '-' then eatDashes doc count (pos + 1)
    else (count + 1, pos)

/-- The string/backtick/raw-string case of the state switch.  The returned
flag is true when the source executes `continue`. -/
def stringStep (doc : List Char) (s : RScan) : RScan × Bool :=
  let c := chAt doc s.pos
  if c = '\\' ∧ ¬ isRawString s.state then
    let dh := resetEscapeDigits (chAt doc (s.pos + 1))
    let s1 : RScan := { setState doc .EscapeChar s with
                escOuter := s.state
                escDigits := dh.1
                escHex := dh.2
                escBrace := false }
    let s2 : RScan := { s1 with pos := s1.pos + 1 }
    if chAt doc (s2.pos + 1) = '{' ∧ 4 < s2.escDigits then
      ({ s2 with escBrace := true, pos := s2.pos + 1 }, false)
    else if matchLineEnd doc s2.pos then
      (setState doc s2.escOuter s2, false)
    else (s2, false)
  else if ¬ isRawString s.state ∧ c.toNat = stringQuote s.state then
    (forwardSetState doc .Default s, false)
  else if isRawString s.state ∧ c.toNat = s.matchingDelimiter then
    let s1 : RScan := { s with insideUrl := s.insideUrl ∧ c ≠ '}', pos := s.pos + 1 }
    let cp := eatDashes doc s.dashCount s1.pos
    let s2 : RScan := { s1 with pos := cp.2 }
    if cp.1 = 0 ∧ (chAt doc cp.2).toNat = rawQuote s.state then
      ({ forwardSetState doc .Default s2 with
         matchingDelimiter := 0
         dashCount := 0 }, false)
    else (s2, true)
  else if s.state ≠ .Backticks then
    if c = '%' then
      let flen := checkFormatSpecifier doc s.pos s.insideUrl
      if flen ≠ 0 then
        let st := s.state
        let s1 : RScan := setState doc .FormatSpecifier s
        let s2 : RScan := { s1 with pos := s1.pos + flen }
        (setState doc st s2, true)
      else (s, false)
    else if c = ':' ∧ chAt doc (s.pos + 1) = '/' ∧ chAt doc (s.pos + 2) = '/' ∧
        isLowerCase (chPrevAt doc s.pos) then
      ({ s with insideUrl := true }, false)
    else if s.insideUrl ∧ isInvalidUrlChar c then
      ({ s with insideUrl := false }, false)
    else (s, false)
  else (s, false)

/-- The `switch (sc.state)` block at the top of `ColouriseRDoc`'s loop.  The
returned flag is true when the source executes `continue`. -/
def switchStep (doc : List Char) (kw : List (List Char)) (s : RScan) :
    RScan × Bool :=
  match s.state with
  | .Operator => (setState doc .Default s, false)
  | .InfixOp =>
    if atLineStart doc s.pos then (setState doc .Default s, false)
    else if chAt doc s.pos = '%' then (forwardSetState doc .Default s, false)
    else (s, false)
  | .Number =>
    if ¬ isDecimalNumberEx (chPrevAt doc s.pos) (chAt doc s.pos)
        (chAt doc (s.pos + 1)) then
      (setState doc .Default s, false)
    else (s, false)
  | .Identifier =>
    if ¬ isIdentifierCharEx (chAt doc s.pos) then
      let s1 :=
        if chAt doc s.pos ≠ '.' ∧ s.chBeforeIdentifier ≠ '.' then
          if kw.contains (((doc.drop s.startSeg).take (s.pos - s.startSeg)).take 127) then
            changeState .Keyword s
          else s
        else s
      let s2 :=
        if s1.state = .Identifier ∧ getLineNextChar doc s1.pos = '(' then
          changeState .Function s1
        else s1
      (setState doc .Default s2, false)
    else (s, false)
  | .Comment =>
    if atLineStart doc s.pos then (setState doc .Default s, false) else (s, false)
  | .Directive =>
    if atLineStart doc s.pos then (setState doc .Default s, false) else (s, false)
  | .Backticks => stringStep doc s
  | .StringSQ => stringStep doc s
  | .StringDQ => stringStep doc s
  | .RawStringSQ => stringStep doc s
  | .RawStringDQ => stringStep doc s
  | .EscapeChar =>
    let s0 := { s with escDigits := s.escDigits - 1 }
    if s0.escDigits ≤ 0 ∨ ¬ isOctalOrHex (chAt doc s0.pos) s0.escHex then
      let s1 :=
        if s0.escBrace ∧ chAt doc s0.pos = '}' then { s0 with pos := s0.pos + 1 }
        else s0
      (setState doc s0.escOuter s1, true)
    else (s0, false)
  | _ => (s, false)

/-- The `if (sc.state == SCE_R_DEFAULT)` block of `ColouriseRDoc`'s loop. -/
def defaultStep (doc : List Char) (s : RScan) : RScan :=
  if s.state ≠ .Default then s
  else
    let c := chAt doc s.pos
    if c = '#' then
      if s.visibleChars = false ∧ matchWord doc s.pos ['#', 'l', 'i', 'n', 'e'] then
        setState doc .Directive s
      else
        let s1 := setState doc .Comment s
        if s.visibleChars = false then { s1 with lineStateLineComment := true }
        else s1
    else if (c = 'r' ∨ c = 'R') ∧
        (chAt doc (s.pos + 1) = '\'' ∨ chAt doc (s.pos + 1) = '"') then
      let chNext := chAt doc (s.pos + 1)
      let md := checkRawString doc s.pos (lineStartNextFrom doc s.pos)
      let s0 := { s with
        insideUrl := false
        matchingDelimiter := md.1
        dashCount := md.2 }
      if md.1 ≠ 0 then
        let s1 := setState doc
          (if chNext = '\'' then .RawStringSQ else .RawStringDQ) s0
        { s1 with pos := s1.pos + (md.2 + 2) }
      else
        let s1 := setState doc .Identifier s0
        forwardSetState doc (if chNext = '\'' then .StringSQ else .StringDQ) s1
    else if c = '"' then { setState doc .StringDQ s with insideUrl := false }
    else if c = '\'' then { setState doc .StringSQ s with insideUrl := false }
    else if c.toNat = 96 then setState doc .Backticks s
    else if isNumberStartEx (chPrevAt doc s.pos) c (chAt doc (s.pos + 1)) then
      setState doc .Number s
    else if isIdentifierStartEx c then
      { setState doc .Identifier s with chBeforeIdentifier := chPrevAt doc s.pos }
    else if c = '%' then setState doc .InfixOp s
    else if isAGraphic c ∧ c ≠ '\\' then setState doc .Operator s
    else s

/-- The bottom of `ColouriseRDoc`'s loop: the `visibleChars` update, the
line-state store at a line end, and `sc.Forward()`. -/
def bottomStep (doc : List Char) (s : RScan) : RScan :=
  let s1 :=
    if s.visibleChars = false ∧ ¬ isSpaceChar (chAt doc s.pos) then
      { s with visibleChars := true }
    else s
  let s2 :=
    if atLineEnd doc s1.pos then
      { s1 with
        lineStates := s1.lineStates ++
          [packLineState s1.lineStateLineComment s1.matchingDelimiter s1.dashCount]
        lineStateLineComment := false
        visibleChars := false
        insideUrl := false }
    else s1
  { s2 with pos := s2.pos + 1 }

/-- The `while (sc.More())` loop of `ColouriseRDoc`, fuelled: one unit of
fuel per pass over the loop body (a `continue` consumes a unit too, exactly
like the source re-testing `sc.More()`). -/
def rLoop (doc : List Char) (kw : List (List Char)) : Nat → RScan → RScan
  | 0, s => s
  | fuel + 1, s =>
    if s.pos < doc.length then
      match switchStep doc kw s with
      | (s1, true) => rLoop doc kw fuel s1
      | (s1, false) => rLoop doc kw fuel (bottomStep doc (defaultStep doc s1))
    else s

/-- `sc.Complete()`: the pending run committed to the end of the document;
the result is the per-character style array of the scanned range. -/
def completeStyles (doc : List Char) (s : RScan) : List RStyle :=
  s.styles ++ List.replicate (doc.length - s.startSeg) s.state

/-- The state at the top of `ColouriseRDoc`: local variables zeroed, the
style state seeded from `initStyle`, and `matchingDelimiter` / `dashCount`
seeded (by the caller) from the stored line state of the previous line. -/
def initScan (startPos : Nat) (initStyle : RStyle) (md dc : Nat) : RScan :=
  { pos := startPos
    state := initStyle
    startSeg := startPos
    styles := []
    lineStates := []
    lineStateLineComment := false
    chBeforeIdentifier := '\x00'
    visibleChars := false
    insideUrl := false
    matchingDelimiter := md
    dashCount := dc
    escOuter := .Default
    escDigits := 0
    escHex := false
    escBrace := false }

end RLex

namespace RLex

theorem unpack_md (c md dc : Nat) (hc : c ≤ 1) (hmd : md < 128) :
    ((c ||| (md <<< 1) ||| (dc <<< 8)) >>> 1) &&& 127 = md := by
  apply Nat.eq_of_testBit_eq
  intro i
  simp only [Nat.testBit_and, Nat.testBit_shiftRight, Nat.testBit_lor,
    Nat.testBit_shiftLeft]
  have hci : c.testBit (1 + i) = false := by
    apply Nat.testBit_lt_two_pow
    calc c < 2 ^ 1 := by omega
    _ ≤ 2 ^ (1 + i) := Nat.pow_le_pow_right (by omega) (by omega)
  rcases Nat.lt_or_ge i 7 with hi | hi
  · have h127 : Nat.testBit 127 i = true := by interval_cases i <;> decide
    simp [hci, h127, show ¬ (8 ≤ 1 + i) by omega, show (1 ≤ 1 + i) by omega,
      show 1 + i - 1 = i by omega]
  · have h127 : Nat.testBit 127 i = false := by
      apply Nat.testBit_lt_two_pow
      calc (127 : Nat) < 2 ^ 7 := by norm_num
      _ ≤ 2 ^ i := Nat.pow_le_pow_right (by omega) hi
    have hmdi : md.testBit i = false := by
      apply Nat.testBit_lt_two_pow
      calc md < 2 ^ 7 := hmd
      _ ≤ 2 ^ i := Nat.pow_le_pow_right (by omega) hi
    simp [h127, hmdi]

theorem unpack_dc (c md dc : Nat) (hc : c ≤ 1) (hmd : md < 128) :
    (c ||| (md <<< 1) ||| (dc <<< 8)) >>> 8 = dc := by
  apply Nat.eq_of_testBit_eq
  intro i
  simp only [Nat.testBit_shiftRight, Nat.testBit_lor, Nat.testBit_shiftLeft]
  have hci : c.testBit (8 + i) = false := by
    apply Nat.testBit_lt_two_pow
    calc c < 2 ^ 1 := by omega
    _ ≤ 2 ^ (8 + i) := Nat.pow_le_pow_right (by omega) (by omega)
  have hmdi : md.testBit (7 + i) = false := by
    apply Nat.testBit_lt_two_pow
    calc md < 2 ^ 7 := hmd
    _ ≤ 2 ^ (7 + i) := Nat.pow_le_pow_right (by omega) (by omega)
  simp [hci, hmdi, show (1 ≤ 8 + i) by omega, show (8 ≤ 8 + i) by omega,
    show 8 + i - 8 = i by omega, show 8 + i - 1 = 7 + i by omega]

/-- C6: inside a non-raw string or backtick state, a backslash begins an
escape sequence whose remaining length is selected by the next character
(1 simple, 3 for `x`, 5 for `u`, 9 for `U`, 3 octal digits), with the
brace-delimited form when more than 4 digits are expected; if the line ends
right after the backslash, the state reverts to the enclosing string state
without consuming the line terminator. -/
theorem c6_escape_sequence (doc : List Char) (s : RScan)
    (hst : s.state = .StringSQ ∨ s.state = .StringDQ ∨ s.state = .Backticks)
    (hbs : chAt doc s.pos = '\\') :
    (chAt doc (s.pos + 1) = 'x' →
      resetEscapeDigits (chAt doc (s.pos + 1)) = (3, true)) ∧
    (chAt doc (s.pos + 1) = 'u' →
      resetEscapeDigits (chAt doc (s.pos + 1)) = (5, true)) ∧
    (chAt doc (s.pos + 1) = 'U' →
      resetEscapeDigits (chAt doc (s.pos + 1)) = (9, true)) ∧
    (isOctalDigit (chAt doc (s.pos + 1)) = true →
      resetEscapeDigits (chAt doc (s.pos + 1)) = (3, false)) ∧
    (chAt doc (s.pos + 1) ≠ 'x' → chAt doc (s.pos + 1) ≠ 'u' →
      chAt doc (s.pos + 1) ≠ 'U' → isOctalDigit (chAt doc (s.pos + 1)) = false →
      resetEscapeDigits (chAt doc (s.pos + 1)) = (1, true)) ∧
    (stringStep doc s).1.escDigits = (resetEscapeDigits (chAt doc (s.pos + 1))).1 ∧
    (stringStep doc s).1.escHex = (resetEscapeDigits (chAt doc (s.pos + 1))).2 ∧
    (stringStep doc s).1.escOuter = s.state ∧
    (chAt doc (s.pos + 2) = '{' ∧ 4 < (resetEscapeDigits (chAt doc (s.pos + 1))).1 →
      (stringStep doc s).1.state = .EscapeChar ∧
      (stringStep doc s).1.escBrace = true ∧
      (stringStep doc s).1.pos = s.pos + 2) ∧
    (¬ (chAt doc (s.pos + 2) = '{' ∧
          4 < (resetEscapeDigits (chAt doc (s.pos + 1))).1) →
      matchLineEnd doc (s.pos + 1) = true →
      (stringStep doc s).1.state = s.state ∧
      (stringStep doc s).1.pos = s.pos + 1) ∧
    (¬ (chAt doc (s.pos + 2) = '{' ∧
          4 < (resetEscapeDigits (chAt doc (s.pos + 1))).1) →
      matchLineEnd doc (s.pos + 1) = false →
      (stringStep doc s).1.state = .EscapeChar ∧
      (stringStep doc s).1.escBrace = false ∧
      (stringStep doc s).1.pos = s.pos + 1) := by
  have hraw : isRawString s.state = false := by
    rcases hst with h | h | h <;> rw [h] <;> rfl
  have hcond : chAt doc s.pos = '\\' ∧ ¬ isRawString s.state = true := by
    exact ⟨hbs, by rw [hraw]; simp⟩
  refine ⟨?_, ?_, ?_, ?_, ?_, ?_, ?_, ?_, ?_, ?_, ?_⟩
  · intro h; rw [h]; rfl
  · intro h; rw [h]; rfl
  · intro h; rw [h]; rfl
  · intro h
    have hx : chAt doc (s.pos + 1) ≠ 'x' := by
      intro hh; rw [hh] at h; exact absurd h (by decide)
    have hu : chAt doc (s.pos + 1) ≠ 'u' := by
      intro hh; rw [hh] at h; exact absurd h (by decide)
    have hU : chAt doc (s.pos + 1) ≠ 'U' := by
      intro hh; rw [hh] at h; exact absurd h (by decide)
    rw [resetEscapeDigits, if_neg hx, if_neg hu, if_neg hU, if_pos h]
  · intro h1 h2 h3 h4
    rw [resetEscapeDigits, if_neg h1, if_neg h2, if_neg h3,
      if_neg (by simp [h4])]
  all_goals
    simp only [stringStep, if_pos hcond]
    split_ifs with hb hm <;>
      simp_all [setState, commitTo, forwardSetState, changeState]

end RLex

namespace RLex

theorem eatDashes_all (doc : List Char) (dc pos : Nat)
    (h : ∀ i, i < dc → chAt doc (pos + i) = '-') :
    eatDashes doc dc pos = (0, pos + dc) := by
  induction dc generalizing pos with
  | zero => rfl
  | succ n ih =>
    have h0 : chAt doc pos = '-' := by simpa using h 0 (by omega)
    have hrest : ∀ i, i < n → chAt doc (pos + 1 + i) = '-' := by
      intro i hi
      have hx := h (i + 1) (by omega)
      rwa [show pos + (i + 1) = pos + 1 + i by omega] at hx
    rw [eatDashes, if_pos h0, ih (pos + 1) hrest]
    congr 1
    omega

theorem checkRawStringAux_spec (doc : List Char) {br : Char} {res : Nat}
    (hbr : (br = '(' ∧ res = 41) ∨ (br = '[' ∧ res = 93) ∨ (br = '{' ∧ res = 125)) :
    ∀ k fuel pos d, k < fuel → (∀ i, i < k → chAt doc (pos + i) = '-') →
      chAt doc (pos + k) = br →
      checkRawStringAux doc fuel pos d = (res, d + k) := by
  intro k
  induction k with
  | zero =>
    intro fuel pos d hf h hb
    obtain ⟨f, rfl⟩ : ∃ f, fuel = f + 1 := ⟨fuel - 1, by omega⟩
    have hb0 : chAt doc pos = br := by simpa using hb
    rcases hbr with ⟨rfl, rfl⟩ | ⟨rfl, rfl⟩ | ⟨rfl, rfl⟩ <;>
      simp [checkRawStringAux, hb0]
  | succ n ih =>
    intro fuel pos d hf h hb
    obtain ⟨f, rfl⟩ : ∃ f, fuel = f + 1 := ⟨fuel - 1, by omega⟩
    have h0 : chAt doc pos = '-' := by simpa using h 0 (by omega)
    have hrest : ∀ i, i < n → chAt doc (pos + 1 + i) = '-' := by
      intro i hi
      have hx := h (i + 1) (by omega)
      rwa [show pos + (i + 1) = pos + 1 + i by omega] at hx
    have hb1 : chAt doc (pos + 1 + n) = br := by
      rwa [show pos + (n + 1) = pos + 1 + n by omega] at hb
    rw [checkRawStringAux]
    simp only [h0, if_true]
    rw [ih f (pos + 1) (d + 1) (by omega) hrest hb1]
    congr 1
    omega

theorem checkRawString_found (doc : List Char) (pos lsn k : Nat)
    (hin : pos + 2 + k < lsn)
    (hd : ∀ i, i < k → chAt doc (pos + 2 + i) = '-') :
    (chAt doc (pos + 2 + k) = '(' → checkRawString doc pos lsn = (41, k)) ∧
    (chAt doc (pos + 2 + k) = '[' → checkRawString doc pos lsn = (93, k)) ∧
    (chAt doc (pos + 2 + k) = '{' → checkRawString doc pos lsn = (125, k)) := by
  refine ⟨fun hb => ?_, fun hb => ?_, fun hb => ?_⟩
  · unfold checkRawString
    rw [checkRawStringAux_spec doc (Or.inl ⟨rfl, rfl⟩) k (lsn - (pos + 2))
      (pos + 2) 0 (by omega) hd hb]
    norm_num
  · unfold checkRawString
    rw [checkRawStringAux_spec doc (Or.inr (Or.inl ⟨rfl, rfl⟩)) k
      (lsn - (pos + 2)) (pos + 2) 0 (by omega) hd hb]
    norm_num
  · unfold checkRawString
    rw [checkRawStringAux_spec doc (Or.inr (Or.inr ⟨rfl, rfl⟩)) k
      (lsn - (pos + 2)) (pos + 2) 0 (by omega) hd hb]
    norm_num

theorem c5_close (doc : List Char) (s : RScan)
    (hraw : isRawString s.state = true)
    (hdelim : (chAt doc s.pos).toNat = s.matchingDelimiter)
    (hdash : ∀ i, i < s.dashCount → chAt doc (s.pos + 1 + i) = '-')
    (hq : (chAt doc (s.pos + 1 + s.dashCount)).toNat = rawQuote s.state) :
    (stringStep doc s).1.state = .Default ∧
    (stringStep doc s).1.matchingDelimiter = 0 ∧
    (stringStep doc s).1.dashCount = 0 ∧
    (stringStep doc s).1.pos = s.pos + s.dashCount + 2 ∧
    (stringStep doc s).2 = false := by
  have hED := eatDashes_all doc s.dashCount (s.pos + 1) hdash
  rw [stringStep, if_neg (by simp [hraw]), if_neg (by simp [hraw]),
    if_pos ⟨by simp [hraw], hdelim⟩]
  simp only [hED]
  rw [if_pos ⟨trivial, hq⟩]
  simp [forwardSetState, setState, commitTo]
  omega

theorem c5_no_delimiter (doc : List Char) (s : RScan)
    (hraw : isRawString s.state = true)
    (hne : (chAt doc s.pos).toNat ≠ s.matchingDelimiter) :
    (stringStep doc s).1.state = s.state ∧
    (stringStep doc s).1.matchingDelimiter = s.matchingDelimiter ∧
    (stringStep doc s).1.dashCount = s.dashCount := by
  have hnb : s.state ≠ RStyle.Backticks := by
    intro h; rw [h] at hraw; exact absurd hraw (by decide)
  rw [stringStep, if_neg (by simp [hraw]), if_neg (by simp [hraw]),
    if_neg (by intro hx; exact hne hx.2), if_pos hnb]
  split_ifs <;>
    first
      | (simp [setState, commitTo]; done)
      | (simp [setState, commitTo]; split_ifs <;> simp [setState, commitTo])

theorem c5_partial (doc : List Char) (s : RScan)
    (hraw : isRawString s.state = true)
    (hdelim : (chAt doc s.pos).toNat = s.matchingDelimiter)
    (hfail : ¬ ((eatDashes doc s.dashCount (s.pos + 1)).1 = 0 ∧
      (chAt doc (eatDashes doc s.dashCount (s.pos + 1)).2).toNat = rawQuote s.state)) :
    (stringStep doc s).1.state = s.state ∧
    (stringStep doc s).1.matchingDelimiter = s.matchingDelimiter ∧
    (stringStep doc s).1.dashCount = s.dashCount ∧
    (stringStep doc s).2 = true := by
  rw [stringStep, if_neg (by simp [hraw]), if_neg (by simp [hraw]),
    if_pos ⟨by simp [hraw], hdelim⟩]
  rw [if_neg hfail]
  simp

end RLex

namespace RLex

theorem c5_entry_raw (doc : List Char) (s : RScan) (hdef : s.state = .Default)
    (hr : chAt doc s.pos = 'r' ∨ chAt doc s.pos = 'R')
    (hq : chAt doc (s.pos + 1) = '\'' ∨ chAt doc (s.pos + 1) = '"')
    (hmd : (checkRawString doc s.pos (lineStartNextFrom doc s.pos)).1 ≠ 0) :
    (defaultStep doc s).state =
      (if chAt doc (s.pos + 1) = '\'' then RStyle.RawStringSQ
        else RStyle.RawStringDQ) ∧
    (defaultStep doc s).matchingDelimiter =
      (checkRawString doc s.pos (lineStartNextFrom doc s.pos)).1 ∧
    (defaultStep doc s).dashCount =
      (checkRawString doc s.pos (lineStartNextFrom doc s.pos)).2 ∧
    (defaultStep doc s).pos =
      s.pos + (checkRawString doc s.pos (lineStartNextFrom doc s.pos)).2 + 2 := by
  rcases hr with hr | hr <;> rcases hq with hq | hq <;>
  · rw [defaultStep, if_neg (by simp [hdef])]
    simp only [hr, hq, setState, commitTo]
    rw [if_neg (by decide), if_pos (by simp), if_pos hmd]
    simp [Nat.add_assoc]

theorem c5_entry_fallback (doc : List Char) (s : RScan) (hdef : s.state = .Default)
    (hr : chAt doc s.pos = 'r' ∨ chAt doc s.pos = 'R')
    (hq : chAt doc (s.pos + 1) = '\'' ∨ chAt doc (s.pos + 1) = '"')
    (hmd : (checkRawString doc s.pos (lineStartNextFrom doc s.pos)).1 = 0)
    (hsty : s.styles.length = s.startSeg) (hseg : s.startSeg ≤ s.pos)
    (hlen : s.pos < doc.length) :
    (defaultStep doc s).state =
      (if chAt doc (s.pos + 1) = '\'' then RStyle.StringSQ
        else RStyle.StringDQ) ∧
    (defaultStep doc s).pos = s.pos + 1 ∧
    (defaultStep doc s).startSeg = s.pos + 1 ∧
    (defaultStep doc s).styles.getD s.pos RStyle.Default = RStyle.Identifier := by
  have hm1 : min s.pos doc.length = s.pos := by omega
  have hm2 : min (s.pos + 1) doc.length = s.pos + 1 := by omega
  rcases hr with hr | hr <;> rcases hq with hq | hq <;>
  · rw [defaultStep, if_neg (by simp [hdef])]
    simp only [hr, hq, setState, commitTo, forwardSetState]
    rw [if_neg (by decide), if_pos (by simp), if_neg (by simp [hmd])]
    refine ⟨by simp, by simp, by simp [hm2], ?_⟩
    simp only [hm1, hm2]
    rw [List.getD_eq_getElem?_getD, List.getElem?_append_right (by simp [hsty]; omega)]
    simp only [hsty, List.length_append, List.length_replicate]
    rw [show s.pos - (s.startSeg + (s.pos - s.startSeg)) = 0 by omega,
      show s.pos + 1 - s.pos = 1 by omega]
    rfl

end RLex

namespace RLex

theorem lineState_store (doc : List Char) (s : RScan)
    (hle : atLineEnd doc s.pos = true) :
    (bottomStep doc s).lineStates = s.lineStates ++
      [packLineState s.lineStateLineComment s.matchingDelimiter s.dashCount] := by
  unfold bottomStep
  split_ifs <;> simp_all

/-- C5: raw-string handling of the R lexer.  (i) In the `Default` state, `r`
or `R` followed by a quote probes forward (`CheckRawString`); on success the
lexer enters the matching raw-string state, records the closing delimiter and
dash count, and skips past the opening delimiter (the cursor lands on the
opening bracket; the loop's own `Forward` then moves past it); on failure the
prefix letter is styled `Identifier` and a plain string state begins at the
quote.  (ii) The probe succeeds exactly on a run of dashes terminated by `(`,
`[` or `{` before the end of the line.  (iii) In a raw-string state, the
string terminates only at the recorded closing bracket followed by exactly
the recorded number of dashes and the matching quote, resetting both
recorded values.  (iv) At a line end both values are persisted in the stored
line state and can be recovered from it. -/
theorem c5_raw_string_protocol (doc : List Char) (s : RScan) :
    (s.state = .Default → (chAt doc s.pos = 'r' ∨ chAt doc s.pos = 'R') →
      (chAt doc (s.pos + 1) = '\'' ∨ chAt doc (s.pos + 1) = '"') →
      ((checkRawString doc s.pos (lineStartNextFrom doc s.pos)).1 ≠ 0 →
        (defaultStep doc s).state =
          (if chAt doc (s.pos + 1) = '\'' then RStyle.RawStringSQ
            else RStyle.RawStringDQ) ∧
        (defaultStep doc s).matchingDelimiter =
          (checkRawString doc s.pos (lineStartNextFrom doc s.pos)).1 ∧
        (defaultStep doc s).dashCount =
          (checkRawString doc s.pos (lineStartNextFrom doc s.pos)).2 ∧
        (defaultStep doc s).pos =
          s.pos + (checkRawString doc s.pos (lineStartNextFrom doc s.pos)).2 + 2) ∧
      ((checkRawString doc s.pos (lineStartNextFrom doc s.pos)).1 = 0 →
        s.styles.length = s.startSeg → s.startSeg ≤ s.pos → s.pos < doc.length →
        (defaultStep doc s).state =
          (if chAt doc (s.pos + 1) = '\'' then RStyle.StringSQ
            else RStyle.StringDQ) ∧
        (defaultStep doc s).pos = s.pos + 1 ∧
        (defaultStep doc s).startSeg = s.pos + 1 ∧
        (defaultStep doc s).styles.getD s.pos RStyle.Default = RStyle.Identifier)) ∧
    (∀ p k : Nat, (∀ i, i < k → chAt doc (p + 2 + i) = '-') →
      p + 2 + k < lineStartNextFrom doc p →
      (chAt doc (p + 2 + k) = '(' →
        checkRawString doc p (lineStartNextFrom doc p) = (41, k)) ∧
      (chAt doc (p + 2 + k) = '[' →
        checkRawString doc p (lineStartNextFrom doc p) = (93, k)) ∧
      (chAt doc (p + 2 + k) = '{' →
        checkRawString doc p (lineStartNextFrom doc p) = (125, k))) ∧
    (isRawString s.state = true →
      (chAt doc s.pos).toNat = s.matchingDelimiter →
      (∀ i, i < s.dashCount → chAt doc (s.pos + 1 + i) = '-') →
      (chAt doc (s.pos + 1 + s.dashCount)).toNat = rawQuote s.state →
      (stringStep doc s).1.state = .Default ∧
      (stringStep doc s).1.matchingDelimiter = 0 ∧
      (stringStep doc s).1.dashCount = 0 ∧
      (stringStep doc s).1.pos = s.pos + s.dashCount + 2 ∧
      (stringStep doc s).2 = false) ∧
    (isRawString s.state = true →
      (chAt doc s.pos).toNat ≠ s.matchingDelimiter →
      (stringStep doc s).1.state = s.state ∧
      (stringStep doc s).1.matchingDelimiter = s.matchingDelimiter ∧
      (stringStep doc s).1.dashCount = s.dashCount) ∧
    (isRawString s.state = true →
      (chAt doc s.pos).toNat = s.matchingDelimiter →
      ¬ ((eatDashes doc s.dashCount (s.pos + 1)).1 = 0 ∧
        (chAt doc (eatDashes doc s.dashCount (s.pos + 1)).2).toNat
          = rawQuote s.state) →
      (stringStep doc s).1.state = s.state ∧
      (stringStep doc s).1.matchingDelimiter = s.matchingDelimiter ∧
      (stringStep doc s).1.dashCount = s.dashCount ∧
      (stringStep doc s).2 = true) ∧
    (atLineEnd doc s.pos = true →
      (bottomStep doc s).lineStates = s.lineStates ++
        [packLineState s.lineStateLineComment s.matchingDelimiter s.dashCount]) ∧
    (s.matchingDelimiter < 128 →
      (packLineState s.lineStateLineComment s.matchingDelimiter s.dashCount >>> 1)
          &&& 127 = s.matchingDelimiter ∧
      packLineState s.lineStateLineComment s.matchingDelimiter s.dashCount >>> 8
          = s.dashCount) := by
  refine ⟨?_, ?_, ?_, ?_, ?_, ?_, ?_⟩
  · intro hdef hr hq
    exact ⟨fun hmd => c5_entry_raw doc s hdef hr hq hmd,
      fun hmd hsty hseg hlen => c5_entry_fallback doc s hdef hr hq hmd hsty hseg hlen⟩
  · intro p k hd hin
    exact checkRawString_found doc p (lineStartNextFrom doc p) k hin hd
  · intro hraw hdelim hdash hq
    exact c5_close doc s hraw hdelim hdash hq
  · intro hraw hne
    exact c5_no_delimiter doc s hraw hne
  · intro hraw hdelim hfail
    exact c5_partial doc s hraw hdelim hfail
  · intro hle
    exact lineState_store doc s hle
  · intro hmd
    unfold packLineState
    constructor
    · exact unpack_md _ _ _ (by split <;> omega) hmd
    · exact unpack_dc _ _ _ (by split <;> omega) hmd

/-- Witness for C5 on the document `r"-(x)-"` scanned from the start: the
probe finds one dash and a parenthesis, and the raw-string state is entered
with delimiter `)` (41) and dash count 1, the cursor landing on `(`. -/
theorem c5_witness :
    (defaultStep ['r', '"', '-', '(', 'x', ')', '-', '"', '\n']
        (initScan 0 .Default 0 0)).state = RStyle.RawStringDQ ∧
    (defaultStep ['r', '"', '-', '(', 'x', ')', '-', '"', '\n']
        (initScan 0 .Default 0 0)).matchingDelimiter = 41 ∧
    (defaultStep ['r', '"', '-', '(', 'x', ')', '-', '"', '\n']
        (initScan 0 .Default 0 0)).dashCount = 1 ∧
    (defaultStep ['r', '"', '-', '(', 'x', ')', '-', '"', '\n']
        (initScan 0 .Default 0 0)).pos = 3 := by
  have h := (c5_raw_string_protocol ['r', '"', '-', '(', 'x', ')', '-', '"', '\n']
    (initScan 0 .Default 0 0)).1 rfl (Or.inl (by decide)) (Or.inr (by decide))
  have h2 := h.1 (by decide)
  refine ⟨?_, ?_, ?_, ?_⟩
  · rw [h2.1]; decide
  · rw [h2.2.1]; decide
  · rw [h2.2.2.1]; decide
  · rw [h2.2.2.2]; decide

end RLex

namespace RLex

/-- Witness for C6 on the document `"\u{A}"` scanned from the backslash in
state `StringDQ`: the `u` escape expects 5 digits in hex, and since 5 > 4 the
brace form is taken, entering `EscapeChar` on the `{`. -/
theorem c6_witness :
    (stringStep ['"', '\\', 'u', '{', 'A', '}', '"']
        (initScan 1 .StringDQ 0 0)).1.state = RStyle.EscapeChar ∧
    (stringStep ['"', '\\', 'u', '{', 'A', '}', '"']
        (initScan 1 .StringDQ 0 0)).1.escBrace = true ∧
    (stringStep ['"', '\\', 'u', '{', 'A', '}', '"']
        (initScan 1 .StringDQ 0 0)).1.pos = 3 ∧
    (stringStep ['"', '\\', 'u', '{', 'A', '}', '"']
        (initScan 1 .StringDQ 0 0)).1.escDigits = 5 ∧
    (stringStep ['"', '\\', 'u', '{', 'A', '}', '"']
        (initScan 1 .StringDQ 0 0)).1.escHex = true ∧
    (stringStep ['"', '\\', 'u', '{', 'A', '}', '"']
        (initScan 1 .StringDQ 0 0)).1.escOuter = RStyle.StringDQ := by
  have h := c6_escape_sequence ['"', '\\', 'u', '{', 'A', '}', '"']
    (initScan 1 .StringDQ 0 0) (Or.inr (Or.inl rfl)) (by decide)
  have h9 := h.2.2.2.2.2.2.2.2.1 ⟨by decide, by decide⟩
  refine ⟨h9.1, h9.2.1, ?_, ?_, ?_, ?_⟩
  · rw [h9.2.2]
    decide
  · rw [h.2.2.2.2.2.1]
    decide
  · rw [h.2.2.2.2.2.2.1]
    decide
  · rw [h.2.2.2.2.2.2.2.1]
    decide

/-- C7 (amended): when an `Identifier` run ends (the next character is not a
valid identifier character), the loop neither advances nor continues; the
accumulated text (truncated to 127 characters) is looked up case-sensitively
in the keyword set ONLY when the terminating character is not `.` and the
character before the identifier was not `.` (the source's dot guard); if
found, the run is retroactively recoloured to `Keyword`; otherwise — and
whenever the dot guard blocks the lookup — if the character immediately after
the identifier is `(`, the run is recoloured to `Function`, else it stays
`Identifier`; in every case the run is then committed and the state returns
to `Default`. -/
theorem c7_identifier_end (doc : List Char) (kw : List (List Char)) (s : RScan)
    (hid : s.state = .Identifier)
    (hexit : isIdentifierCharEx (chAt doc s.pos) = false) :
    (switchStep doc kw s).2 = false ∧
    (switchStep doc kw s).1.pos = s.pos ∧
    (chAt doc s.pos ≠ '.' → s.chBeforeIdentifier ≠ '.' →
      kw.contains (((doc.drop s.startSeg).take (s.pos - s.startSeg)).take 127)
          = true →
      (switchStep doc kw s).1 =
        setState doc .Default (changeState .Keyword s)) ∧
    (chAt doc s.pos ≠ '.' → s.chBeforeIdentifier ≠ '.' →
      kw.contains (((doc.drop s.startSeg).take (s.pos - s.startSeg)).take 127)
          = false →
      getLineNextChar doc s.pos = '(' →
      (switchStep doc kw s).1 =
        setState doc .Default (changeState .Function s)) ∧
    (chAt doc s.pos ≠ '.' → s.chBeforeIdentifier ≠ '.' →
      kw.contains (((doc.drop s.startSeg).take (s.pos - s.startSeg)).take 127)
          = false →
      getLineNextChar doc s.pos ≠ '(' →
      (switchStep doc kw s).1 = setState doc .Default s) ∧
    ((chAt doc s.pos = '.' ∨ s.chBeforeIdentifier = '.') →
      getLineNextChar doc s.pos = '(' →
      (switchStep doc kw s).1 =
        setState doc .Default (changeState .Function s)) ∧
    ((chAt doc s.pos = '.' ∨ s.chBeforeIdentifier = '.') →
      getLineNextChar doc s.pos ≠ '(' →
      (switchStep doc kw s).1 = setState doc .Default s) := by
  have hex : ¬ isIdentifierCharEx (chAt doc s.pos) = true := by simp [hexit]
  refine ⟨?_, ?_, ?_, ?_, ?_, ?_, ?_⟩
  · simp only [switchStep, hid]
    rw [if_pos hex]
  · simp only [switchStep, hid]
    rw [if_pos hex]
    split_ifs <;> simp [setState, commitTo, changeState]
  · intro h1 h2 hkw
    simp only [switchStep, hid]
    rw [if_pos hex]
    split_ifs <;> simp_all [setState, commitTo, changeState]
  · intro h1 h2 hkw hnext
    simp only [switchStep, hid]
    rw [if_pos hex]
    split_ifs <;> simp_all [setState, commitTo, changeState, getLineNextChar]
  · intro h1 h2 hkw hnext
    simp only [switchStep, hid]
    rw [if_pos hex]
    split_ifs <;> simp_all [setState, commitTo, changeState, getLineNextChar]
  · intro h1 hnext
    simp only [switchStep, hid]
    rw [if_pos hex]
    split_ifs <;> simp_all [setState, commitTo, changeState, getLineNextChar]
  · intro h1 hnext
    simp only [switchStep, hid]
    rw [if_pos hex]
    split_ifs <;> simp_all [setState, commitTo, changeState, getLineNextChar]

/-- C7 is refuted as stated: scanning `a.if \n` with keyword set containing
`if`, the identifier run `if` ends at the space, its accumulated text is in
the keyword set, and the character after it is not `(`; the claim as stated
then requires `Keyword`, but the lexer's dot guard (the character before the
identifier is `.`) skips the lookup and leaves it `Identifier`. -/
theorem c7_counterexample :
    [['i', 'f']].contains ((['a', '.', 'i', 'f', ' ', '\n'].drop 2).take 2)
        = true ∧
    chAt ['a', '.', 'i', 'f', ' ', '\n'] 4 ≠ '(' ∧
    (completeStyles ['a', '.', 'i', 'f', ' ', '\n']
        (rLoop ['a', '.', 'i', 'f', ' ', '\n'] [['i', 'f']] 20
          (initScan 0 .Default 0 0))).getD 2 RStyle.Default
        = RStyle.Identifier ∧
    RStyle.Identifier ≠ RStyle.Keyword := by decide

/-- Witness for C7 (amended): the identifier `if` of the document `if(`,
scanned with keyword set containing `if`, ends at `(`; the dot guard passes
and the keyword lookup recolours the run to `Keyword`. -/
theorem c7_witness :
    (switchStep ['i', 'f', '('] [['i', 'f']]
        { initScan 0 .Identifier 0 0 with pos := 2 }).1.state = RStyle.Default ∧
    (switchStep ['i', 'f', '('] [['i', 'f']]
        { initScan 0 .Identifier 0 0 with pos := 2 }).1.styles
      = [RStyle.Keyword, RStyle.Keyword] := by
  have h := (c7_identifier_end ['i', 'f', '('] [['i', 'f']]
    { initScan 0 .Identifier 0 0 with pos := 2 } rfl (by decide)).2.2.1
    (by decide) (by decide) (by decide)
  rw [h]
  exact ⟨rfl, rfl⟩

end RLex

namespace RLex

/-- `SC_FOLDLEVELBASE` (0x400). -/
def SC_FOLDLEVELBASE : Int := 1024

/-- `SC_FOLDLEVELHEADERFLAG` (0x2000). -/
def SC_FOLDLEVELHEADERFLAG : Nat := 8192

/-- `GetLineCommentState` from LexR.cxx:
`lineState & SimpleLineStateMaskLineComment`. -/
def GetLineCommentState (lineState : Nat) : Int := ((lineState &&& 1 : Nat) : Int)

/-- The per-character fold contribution of `FoldSimpleDoc`'s loop: ±1 on
bracket characters styled as operator, 0 otherwise. -/
def bracketDelta (style : RStyle) (ch : Char) : Int :=
  if style = .Operator then
    if ch = '{' ∨ ch = '[' ∨ ch = '(' then 1
    else if ch = '}' ∨ ch = ']' ∨ ch = ')' then -1
    else 0
  else 0

/-- `levelUse | (levelNext << 16)` with the header flag, as stored by
`styler.SetLevel`. -/
def packLevel (levelUse levelNext : Int) (header : Bool) : Nat :=
  levelUse.toNat ||| (levelNext.toNat <<< 16) |||
    (if header then SC_FOLDLEVELHEADERFLAG else 0)

/-- The state of `FoldSimpleDoc`'s loop; `levels` holds the values stored by
`styler.SetLevel` for lines `0, 1, ...`. -/
structure FoldState where
  pos : Nat
  lineCurrent : Nat
  lineStartNext : Nat
  levelCurrent : Int
  levelNext : Int
  lineCommentPrev : Int
  lineCommentCurrent : Int
  levels : List Nat
  deriving DecidableEq, Repr

/-- One pass of `FoldSimpleDoc`'s `while (startPos < endPos)` loop body:
the operator-bracket level bump, then — when `++startPos` reaches
`lineStartNext` — the baseline clamp, the line-comment adjustment, the
header-flag test and the `SetLevel` store. -/
def foldStep (doc : List Char) (styles : List RStyle) (lineStates : List Nat)
    (f : FoldState) : FoldState :=
  let style := styles.getD f.pos .Default
  let ch := chAt doc f.pos
  let levelNext1 : Int := f.levelNext + bracketDelta style ch
  let pos1 := f.pos + 1
  if pos1 = f.lineStartNext then
    let lineCommentNext :=
      GetLineCommentState (lineStates.getD (f.lineCurrent + 1) 0)
    let ln1 : Int := max levelNext1 SC_FOLDLEVELBASE
    let ln2 : Int :=
      if f.lineCommentCurrent ≠ 0 then ln1 + (lineCommentNext - f.lineCommentPrev)
      else ln1
    { pos := pos1
      lineCurrent := f.lineCurrent + 1
      lineStartNext := min (lineStartNextFrom doc pos1) doc.length
      levelCurrent := ln2
      levelNext := ln2
      lineCommentPrev := f.lineCommentCurrent
      lineCommentCurrent := lineCommentNext
      levels := f.levels ++
        [packLevel f.levelCurrent ln2 (decide (f.levelCurrent < ln2))] }
  else
    { f with pos := pos1, levelNext := levelNext1 }

/-- The whole `FoldSimpleDoc` loop, fuelled one unit per character. -/
def foldLoop (doc : List Char) (styles : List RStyle)
    (lineStates : List Nat) : Nat → FoldState → FoldState
  | 0, f => f
  | fuel + 1, f =>
    if f.pos < doc.length then
      foldLoop doc styles lineStates fuel (foldStep doc styles lineStates f)
    else f

/-- The initial state of `FoldSimpleDoc` for a whole-document fold
(`startPos = 0`, `lineCurrent = 0`). -/
def initFold (doc : List Char) (lineStates : List Nat) : FoldState :=
  { pos := 0
    lineCurrent := 0
    lineStartNext := min (lineStartNextFrom doc 0) doc.length
    levelCurrent := SC_FOLDLEVELBASE
    levelNext := SC_FOLDLEVELBASE
    lineCommentPrev := 0
    lineCommentCurrent := GetLineCommentState (lineStates.getD 0 0)
    levels := [] }

theorem packLevel_flag (u n : Int) (b : Bool) (hu : u.toNat < 8192) :
    packLevel u n b &&& 8192 = if b then 8192 else 0 := by
  have hu13 : u.toNat.testBit 13 = false := Nat.testBit_lt_two_pow (by omega)
  have h8192 : (8192 : Nat).testBit 13 = true := by decide
  apply Nat.eq_of_testBit_eq
  intro i
  rcases eq_or_ne i 13 with rfl | hi
  · cases b <;>
      simp [packLevel, SC_FOLDLEVELHEADERFLAG, Nat.testBit_and, Nat.testBit_or,
        Nat.testBit_shiftLeft, hu13, h8192]
  · have h2 : (8192 : Nat).testBit i = false := by
      rw [show (8192 : Nat) = 2 ^ 13 by norm_num]
      exact Nat.testBit_two_pow_of_ne (Ne.symm hi)
    cases b <;>
      simp [packLevel, SC_FOLDLEVELHEADERFLAG, Nat.testBit_and, Nat.testBit_or, h2]

end RLex

namespace RLex

/-- C8: in `FoldSimpleDoc`, (i) away from a line boundary, a character styled
as operator contributes +1 to the running fold level for `{`, `[`, `(` and
−1 for `}`, `]`, `)`, any other character or style leaving it unchanged, and
no level is stored; (ii) at a line boundary (with no line-comment adjustment
pending) the running level is clamped to the baseline `SC_FOLDLEVELBASE`,
becomes the next line's level, and the line's packed level word is stored
with this line's level as `levelUse`; (iii) the stored word carries the
header flag exactly when the line's level is strictly below the following
line's level. -/
theorem c8_fold_levels (doc : List Char) (styles : List RStyle)
    (lineStates : List Nat) (f : FoldState) :
    (f.pos + 1 ≠ f.lineStartNext →
      (styles.getD f.pos .Default = .Operator →
        ((chAt doc f.pos = '{' ∨ chAt doc f.pos = '[' ∨ chAt doc f.pos = '(') →
          (foldStep doc styles lineStates f).levelNext = f.levelNext + 1) ∧
        ((chAt doc f.pos = '}' ∨ chAt doc f.pos = ']' ∨ chAt doc f.pos = ')') →
          (foldStep doc styles lineStates f).levelNext = f.levelNext - 1)) ∧
      (styles.getD f.pos .Default ≠ .Operator →
        (foldStep doc styles lineStates f).levelNext = f.levelNext) ∧
      (foldStep doc styles lineStates f).levels = f.levels ∧
      (foldStep doc styles lineStates f).levelCurrent = f.levelCurrent) ∧
    (f.pos + 1 = f.lineStartNext → f.lineCommentCurrent = 0 →
      (foldStep doc styles lineStates f).levelNext =
        max (f.levelNext +
          bracketDelta (styles.getD f.pos .Default) (chAt doc f.pos))
          SC_FOLDLEVELBASE ∧
      SC_FOLDLEVELBASE ≤ (foldStep doc styles lineStates f).levelNext ∧
      (foldStep doc styles lineStates f).levelCurrent =
        (foldStep doc styles lineStates f).levelNext ∧
      (foldStep doc styles lineStates f).levels = f.levels ++
        [packLevel f.levelCurrent (foldStep doc styles lineStates f).levelNext
          (decide (f.levelCurrent <
            (foldStep doc styles lineStates f).levelNext))]) ∧
    (∀ u n : Int, u.toNat < 8192 →
      (packLevel u n (decide (u < n)) &&& 8192 ≠ 0 ↔ u < n)) := by
  refine ⟨?_, ?_, ?_⟩
  · intro hb
    refine ⟨?_, ?_, ?_, ?_⟩
    · intro hop
      rw [List.getD_eq_getElem?_getD] at hop
      constructor
      · intro hch
        simp only [foldStep]
        rw [if_neg hb]
        rcases hch with h | h | h <;> simp [bracketDelta, hop, h]
      · intro hch
        simp only [foldStep]
        rw [if_neg hb]
        rcases hch with h | h | h <;> simp [bracketDelta, hop, h, Int.sub_eq_add_neg]
    · intro hop
      rw [List.getD_eq_getElem?_getD] at hop
      simp only [foldStep]
      rw [if_neg hb]
      simp [bracketDelta, hop]
    · simp only [foldStep]
      rw [if_neg hb]
    · simp only [foldStep]
      rw [if_neg hb]
  · intro hb hlc
    simp only [foldStep]
    rw [if_pos hb, if_neg (by simp [hlc])]
    refine ⟨rfl, ?_, rfl, rfl⟩
    simp only []
    exact le_max_right _ _
  · intro u n hu
    rw [packLevel_flag u n _ hu]
    by_cases h : u < n
    · simp [h]
    · simp [h]

/-- Witness for C8 on the document `{`¶`}`¶ with both brackets styled
operator: the first step bumps the level to 1025; the boundary step stores
line 0's packed level 1024 | (1025 << 16) | headerFlag, and the flag is set
since 1024 < 1025. -/
theorem c8_witness :
    (foldStep ['{', '\n', '}', '\n']
        [RStyle.Operator, RStyle.Default, RStyle.Operator, RStyle.Default]
        [0, 0] (initFold ['{', '\n', '}', '\n'] [0, 0])).levelNext = 1025 ∧
    (foldStep ['{', '\n', '}', '\n']
        [RStyle.Operator, RStyle.Default, RStyle.Operator, RStyle.Default]
        [0, 0]
        (foldStep ['{', '\n', '}', '\n']
          [RStyle.Operator, RStyle.Default, RStyle.Operator, RStyle.Default]
          [0, 0] (initFold ['{', '\n', '}', '\n'] [0, 0]))).levels =
      [packLevel 1024 1025 true] ∧
    packLevel 1024 1025 true &&& 8192 ≠ 0 := by
  have h1 := (((c8_fold_levels ['{', '\n', '}', '\n']
    [RStyle.Operator, RStyle.Default, RStyle.Operator, RStyle.Default]
    [0, 0] (initFold ['{', '\n', '}', '\n'] [0, 0])).1 (by decide)).1
      (by decide)).1 (by decide)
  have h2 := (c8_fold_levels ['{', '\n', '}', '\n']
    [RStyle.Operator, RStyle.Default, RStyle.Operator, RStyle.Default]
    [0, 0]
    (foldStep ['{', '\n', '}', '\n']
      [RStyle.Operator, RStyle.Default, RStyle.Operator, RStyle.Default]
      [0, 0] (initFold ['{', '\n', '}', '\n'] [0, 0]))).2.1
    (by decide) (by decide)
  refine ⟨?_, ?_, ?_⟩
  · rw [h1]
    decide
  · rw [h2.2.2.2]
    decide
  · have h3 := ((c8_fold_levels ['{', '\n', '}', '\n']
      [RStyle.Operator, RStyle.Default, RStyle.Operator, RStyle.Default]
      [0, 0] (initFold ['{', '\n', '}', '\n'] [0, 0])).2.2 1024 1025
        (by decide)).mpr (by decide)
    simpa using h3

end RLex

namespace RLex

/-- The simulation relation of re-lexing: `σ` is the whole-document scan,
`σ'` the scan restarted at position `P` after `L` stored lines.  The
restarted scan agrees with the full one on the cursor and on every control
field; its committed styles and stored line states are the full scan's with
the first `P` styles (resp. `L` line states) removed; the fields that the
restart initialises arbitrarily (`chBeforeIdentifier`, the escape-sequence
fields) are only required to agree while a state that reads them is
active. -/
structure Rel (P L len : Nat) (σ σ' : RScan) : Prop where
  pos_eq : σ'.pos = σ.pos
  pos_ge : P ≤ σ.pos
  state_eq : σ'.state = σ.state
  styles_eq : σ'.styles = σ.styles.drop P
  seg_eq : σ'.startSeg = max σ.startSeg P
  len_eq : σ.styles.length = σ.startSeg
  seg_le_pos : σ.startSeg ≤ σ.pos
  seg_le_len : σ.startSeg ≤ len
  ls_eq : σ'.lineStates = σ.lineStates.drop L
  ls_ge : L ≤ σ.lineStates.length
  lc_eq : σ'.lineStateLineComment = σ.lineStateLineComment
  vis_eq : σ'.visibleChars = σ.visibleChars
  url_eq : σ'.insideUrl = σ.insideUrl
  md_eq : σ'.matchingDelimiter = σ.matchingDelimiter
  dc_eq : σ'.dashCount = σ.dashCount
  ident_inv : σ.state = .Identifier →
    σ'.chBeforeIdentifier = σ.chBeforeIdentifier ∧ P ≤ σ.startSeg
  esc_inv : σ.state = .EscapeChar →
    σ'.escOuter = σ.escOuter ∧ σ'.escDigits = σ.escDigits ∧
    σ'.escHex = σ.escHex ∧ σ'.escBrace = σ.escBrace ∧
    (σ.escOuter = .StringSQ ∨ σ.escOuter = .StringDQ ∨
      σ.escOuter = .Backticks)

theorem Rel_commitTo {P L : Nat} {doc : List Char} {σ σ' : RScan}
    (hP : P ≤ doc.length) (h : Rel P L doc.length σ σ') :
    Rel P L doc.length (commitTo doc σ) (commitTo doc σ') := by
  obtain ⟨hpos, hPp, hst, hsty, hseg, hlen, hsp, hsl, hls, hLl, hlc, hv, hu,
    hm, hd, hid, hes⟩ := h
  have hmn : P ≤ min σ.pos doc.length := le_min hPp hP
  refine ⟨?_, ?_, ?_, ?_, ?_, ?_, ?_, ?_, ?_, ?_, ?_, ?_, ?_, ?_, ?_, ?_, ?_⟩
  · simp [commitTo, hpos]
  · simpa [commitTo] using hPp
  · simp [commitTo, hst]
  · simp only [commitTo, hpos, hst, hsty, hseg]
    rw [List.drop_append_eq_append_drop, List.drop_replicate, hlen]
    have : min σ.pos doc.length - σ.startSeg - (P - σ.startSeg)
        = min σ.pos doc.length - max σ.startSeg P := by omega
    rw [this]
  · simp only [commitTo, hpos]
    omega
  · simp only [commitTo, List.length_append, List.length_replicate, hlen]
    omega
  · simp only [commitTo]
    exact min_le_left _ _
  · simp only [commitTo]
    exact min_le_right _ _
  · simpa [commitTo] using hls
  · simpa [commitTo] using hLl
  · simpa [commitTo] using hlc
  · simpa [commitTo] using hv
  · simpa [commitTo] using hu
  · simpa [commitTo] using hm
  · simpa [commitTo] using hd
  · intro hI
    simp only [commitTo] at hI ⊢
    exact ⟨(hid hI).1, hmn⟩
  · intro hE
    simp only [commitTo] at hE ⊢
    exact hes hE

theorem Rel_setState {P L : Nat} {doc : List Char} {σ σ' : RScan}
    (st : RStyle) (hP : P ≤ doc.length)
    (hni : st ≠ .Identifier) (hne : st ≠ .EscapeChar)
    (h : Rel P L doc.length σ σ') :
    Rel P L doc.length (setState doc st σ) (setState doc st σ') := by
  obtain ⟨hpos, hPp, hst, hsty, hseg, hlen, hsp, hsl, hls, hLl, hlc, hv, hu,
    hm, hd, hid, hes⟩ := Rel_commitTo hP h
  exact ⟨hpos, hPp, by simp [setState, hst], hsty, hseg, hlen, hsp, hsl, hls,
    hLl, hlc, hv, hu, hm, hd, fun hI => absurd hI hni, fun hE => absurd hE hne⟩

theorem Rel_bump {P L len : Nat} {σ σ' : RScan} (k : Nat)
    (h : Rel P L len σ σ') :
    Rel P L len { σ with pos := σ.pos + k } { σ' with pos := σ'.pos + k } := by
  obtain ⟨hpos, hPp, hst, hsty, hseg, hlen, hsp, hsl, hls, hLl, hlc, hv, hu,
    hm, hd, hid, hes⟩ := h
  exact ⟨by simp [hpos], show P ≤ σ.pos + k by omega, hst, hsty, hseg, hlen,
    show σ.startSeg ≤ σ.pos + k by omega, hsl, hls,
    hLl, hlc, hv, hu, hm, hd, hid, hes⟩

theorem Rel_forwardSetState {P L : Nat} {doc : List Char} {σ σ' : RScan}
    (st : RStyle) (hP : P ≤ doc.length)
    (hni : st ≠ .Identifier) (hne : st ≠ .EscapeChar)
    (h : Rel P L doc.length σ σ') :
    Rel P L doc.length (forwardSetState doc st σ) (forwardSetState doc st σ') :=
  Rel_setState st hP hni hne (Rel_bump 1 h)

theorem Rel_changeState {P L len : Nat} {σ σ' : RScan} (st : RStyle)
    (hni : st ≠ .Identifier) (hne : st ≠ .EscapeChar)
    (h : Rel P L len σ σ') :
    Rel P L len (changeState st σ) (changeState st σ') := by
  obtain ⟨hpos, hPp, hst, hsty, hseg, hlen, hsp, hsl, hls, hLl, hlc, hv, hu,
    hm, hd, hid, hes⟩ := h
  exact ⟨hpos, hPp, by simp [changeState], hsty, hseg, hlen, hsp, hsl, hls,
    hLl, hlc, hv, hu, hm, hd, fun hI => absurd hI hni, fun hE => absurd hE hne⟩

theorem Rel_posSet {P L len : Nat} {σ σ' : RScan} (v : Nat)
    (hv : σ.pos ≤ v) (h : Rel P L len σ σ') :
    Rel P L len { σ with pos := v } { σ' with pos := v } := by
  obtain ⟨hpos, hPp, hst, hsty, hseg, hlen, hsp, hsl, hls, hLl, hlc, hv2, hu,
    hm, hd, hid, hes⟩ := h
  exact ⟨rfl, show P ≤ v by omega, hst, hsty, hseg, hlen,
    show σ.startSeg ≤ v by omega, hsl, hls, hLl, hlc, hv2, hu, hm, hd, hid, hes⟩

theorem Rel_urlSet {P L len : Nat} {σ σ' : RScan} (b : Bool)
    (h : Rel P L len σ σ') :
    Rel P L len { σ with insideUrl := b } { σ' with insideUrl := b } := by
  obtain ⟨hpos, hPp, hst, hsty, hseg, hlen, hsp, hsl, hls, hLl, hlc, hv, hu,
    hm, hd, hid, hes⟩ := h
  exact ⟨hpos, hPp, hst, hsty, hseg, hlen, hsp, hsl, hls, hLl, hlc, hv, rfl,
    hm, hd, hid, hes⟩

theorem Rel_mdSet {P L len : Nat} {σ σ' : RScan} (m d : Nat)
    (h : Rel P L len σ σ') :
    Rel P L len { σ with matchingDelimiter := m, dashCount := d }
      { σ' with matchingDelimiter := m, dashCount := d } := by
  obtain ⟨hpos, hPp, hst, hsty, hseg, hlen, hsp, hsl, hls, hLl, hlc, hv, hu,
    hm, hd2, hid, hes⟩ := h
  exact ⟨hpos, hPp, hst, hsty, hseg, hlen, hsp, hsl, hls, hLl, hlc, hv, hu,
    rfl, rfl, hid, hes⟩

theorem Rel_braceSet {P L len : Nat} {σ σ' : RScan} (b : Bool)
    (h : Rel P L len σ σ') :
    Rel P L len { σ with escBrace := b } { σ' with escBrace := b } := by
  obtain ⟨hpos, hPp, hst, hsty, hseg, hlen, hsp, hsl, hls, hLl, hlc, hv, hu,
    hm, hd, hid, hes⟩ := h
  refine ⟨hpos, hPp, hst, hsty, hseg, hlen, hsp, hsl, hls, hLl, hlc, hv, hu,
    hm, hd, hid, ?_⟩
  intro hE
  obtain ⟨h1, h2, h3, h4, h5⟩ := hes hE
  exact ⟨h1, h2, h3, rfl, h5⟩

theorem Rel_escEnter {P L : Nat} {doc : List Char} {σ σ' : RScan}
    (d : Int) (b : Bool) (hP : P ≤ doc.length)
    (hst3 : σ.state = .StringSQ ∨ σ.state = .StringDQ ∨ σ.state = .Backticks)
    (h : Rel P L doc.length σ σ') :
    Rel P L doc.length
      { setState doc .EscapeChar σ with
        escOuter := σ.state, escDigits := d, escHex := b, escBrace := false }
      { setState doc .EscapeChar σ' with
        escOuter := σ.state, escDigits := d, escHex := b, escBrace := false } := by
  obtain ⟨hpos, hPp, hst, hsty, hseg, hlen, hsp, hsl, hls, hLl, hlc, hv, hu,
    hm, hd, hid, hes⟩ := Rel_commitTo hP h
  exact ⟨hpos, hPp, rfl, hsty, hseg, hlen, hsp, hsl, hls, hLl, hlc, hv, hu,
    hm, hd, fun hI => by simp [setState, commitTo] at hI, fun _ => ⟨rfl, rfl, rfl, rfl, hst3⟩⟩

theorem eatDashes_ge (doc : List Char) :
    ∀ c p, p ≤ (eatDashes doc c p).2 := by
  intro c
  induction c with
  | zero => intro p; exact le_refl p
  | succ n ih =>
    intro p
    rw [eatDashes]
    split_ifs
    · exact le_trans (Nat.le_succ p) (ih (p + 1))
    · exact le_refl p

theorem setState_pos (doc : List Char) (st : RStyle) (s : RScan) :
    (setState doc st s).pos = s.pos := rfl

theorem Rel_stringStep {P L : Nat} {doc : List Char} {σ σ' : RScan}
    (hP : P ≤ doc.length)
    (hst5 : σ.state = .StringSQ ∨ σ.state = .StringDQ ∨ σ.state = .Backticks ∨
      σ.state = .RawStringSQ ∨ σ.state = .RawStringDQ)
    (h : Rel P L doc.length σ σ') :
    (stringStep doc σ').2 = (stringStep doc σ).2 ∧
    Rel P L doc.length (stringStep doc σ).1 (stringStep doc σ').1 := by
  have hni : σ.state ≠ .Identifier := by
    rcases hst5 with h1 | h1 | h1 | h1 | h1 <;> simp [h1]
  have hne : σ.state ≠ .EscapeChar := by
    rcases hst5 with h1 | h1 | h1 | h1 | h1 <;> simp [h1]
  obtain ⟨p', st', sg', sty', lsl', lc', cb', vb', ub', m', d', eo', ed',
    eh', eb'⟩ := σ'
  have hpos : p' = σ.pos := h.pos_eq
  have hstate : st' = σ.state := h.state_eq
  have hsty : sty' = σ.styles.drop P := h.styles_eq
  have hseg : sg' = max σ.startSeg P := h.seg_eq
  have hls : lsl' = σ.lineStates.drop L := h.ls_eq
  have hlc : lc' = σ.lineStateLineComment := h.lc_eq
  have hvb : vb' = σ.visibleChars := h.vis_eq
  have hub : ub' = σ.insideUrl := h.url_eq
  have hm : m' = σ.matchingDelimiter := h.md_eq
  have hd : d' = σ.dashCount := h.dc_eq
  subst hpos hstate hsty hseg hls hlc hvb hub hm hd
  simp only [stringStep, setState_pos]
  split_ifs with c1 c2 c3 c4 c5 c6 c7 c8 c9 c10 c11
  · -- escape entry, brace form
    have hst3 : σ.state = .StringSQ ∨ σ.state = .StringDQ ∨
        σ.state = .Backticks := by
      rcases hst5 with h1 | h1 | h1 | h1 | h1
      · exact Or.inl h1
      · exact Or.inr (Or.inl h1)
      · exact Or.inr (Or.inr h1)
      · rw [h1] at c1
        exact absurd rfl c1.2
      · rw [h1] at c1
        exact absurd rfl c1.2
    refine ⟨rfl, ?_⟩
    exact Rel_posSet _ (by exact Nat.le_succ _) (Rel_braceSet true
      (Rel_posSet _ (by exact Nat.le_succ _) (Rel_escEnter (resetEscapeDigits (chAt doc (σ.pos + 1))).1
        (resetEscapeDigits (chAt doc (σ.pos + 1))).2 hP hst3 h)))
  · -- escape entry, line end: revert to the outer state
    have hst3 : σ.state = .StringSQ ∨ σ.state = .StringDQ ∨
        σ.state = .Backticks := by
      rcases hst5 with h1 | h1 | h1 | h1 | h1
      · exact Or.inl h1
      · exact Or.inr (Or.inl h1)
      · exact Or.inr (Or.inr h1)
      · rw [h1] at c1
        exact absurd rfl c1.2
      · rw [h1] at c1
        exact absurd rfl c1.2
    refine ⟨rfl, ?_⟩
    exact Rel_setState σ.state hP hni hne
      (Rel_posSet _ (by exact Nat.le_succ _) (Rel_escEnter (resetEscapeDigits (chAt doc (σ.pos + 1))).1
        (resetEscapeDigits (chAt doc (σ.pos + 1))).2 hP hst3 h))
  · -- escape entry, normal
    have hst3 : σ.state = .StringSQ ∨ σ.state = .StringDQ ∨
        σ.state = .Backticks := by
      rcases hst5 with h1 | h1 | h1 | h1 | h1
      · exact Or.inl h1
      · exact Or.inr (Or.inl h1)
      · exact Or.inr (Or.inr h1)
      · rw [h1] at c1
        exact absurd rfl c1.2
      · rw [h1] at c1
        exact absurd rfl c1.2
    refine ⟨rfl, ?_⟩
    exact Rel_posSet _ (by exact Nat.le_succ _) (Rel_escEnter (resetEscapeDigits (chAt doc (σ.pos + 1))).1
        (resetEscapeDigits (chAt doc (σ.pos + 1))).2 hP hst3 h)
  · -- closing quote of a plain string
    exact ⟨rfl, Rel_forwardSetState .Default hP (by decide) (by decide) h⟩
  · -- raw-string delimiter, full close
    refine ⟨rfl, ?_⟩
    exact Rel_mdSet 0 0 (Rel_forwardSetState .Default hP (by decide)
      (by decide) (Rel_posSet _
        (by exact eatDashes_ge doc σ.dashCount (σ.pos + 1))
        (Rel_posSet _ (by exact Nat.le_succ _)
          (Rel_urlSet (decide (σ.insideUrl = true ∧ chAt doc σ.pos ≠ '}')) h))))
  · -- raw-string delimiter, partial match: continue
    refine ⟨rfl, ?_⟩
    exact Rel_posSet _
      (by exact eatDashes_ge doc σ.dashCount (σ.pos + 1))
      (Rel_posSet _ (by exact Nat.le_succ _)
        (Rel_urlSet (decide (σ.insideUrl = true ∧ chAt doc σ.pos ≠ '}')) h))
  · -- format specifier
    refine ⟨rfl, ?_⟩
    exact Rel_setState σ.state hP hni hne (Rel_bump _
      (Rel_setState .FormatSpecifier hP (by decide) (by decide) h))
  · -- '%' but no format specifier
    exact ⟨rfl, h⟩
  · -- URL start
    exact ⟨rfl, Rel_urlSet true h⟩
  · -- URL end
    exact ⟨rfl, Rel_urlSet false h⟩
  · -- other character in a non-backtick string
    exact ⟨rfl, h⟩
  · -- backtick string, other character
    exact ⟨rfl, h⟩


theorem Rel_chBIrrel {P L len : Nat} {σ σ' : RScan}
    (hni : σ.state ≠ .Identifier) (c : Char) (h : Rel P L len σ σ') :
    Rel P L len σ { σ' with chBeforeIdentifier := c } := by
  obtain ⟨hpos, hPp, hst, hsty, hseg, hlen, hsp, hsl, hls, hLl, hlc, hv, hu,
    hm, hd, hid, hes⟩ := h
  exact ⟨hpos, hPp, hst, hsty, hseg, hlen, hsp, hsl, hls, hLl, hlc, hv, hu,
    hm, hd, fun hI => absurd hI hni, fun hE => hes hE⟩

theorem Rel_setStateChB {P L : Nat} {doc : List Char} {σ σ' : RScan}
    (st : RStyle) (hP : P ≤ doc.length) (hne : st ≠ .EscapeChar)
    (hchb : σ'.chBeforeIdentifier = σ.chBeforeIdentifier)
    (h : Rel P L doc.length σ σ') :
    Rel P L doc.length (setState doc st σ) (setState doc st σ') := by
  obtain ⟨hpos, hPp, hst, hsty, hseg, hlen, hsp, hsl, hls, hLl, hlc, hv, hu,
    hm, hd, hid, hes⟩ := Rel_commitTo hP h
  have hmn : P ≤ min σ.pos doc.length := le_min h.pos_ge hP
  exact ⟨hpos, hPp, by simp [setState, hst], hsty, hseg, hlen, hsp, hsl, hls,
    hLl, hlc, hv, hu, hm, hd, fun _ => ⟨hchb, hmn⟩, fun hE => absurd hE hne⟩

theorem Rel_fallbackEntry {P L : Nat} {doc : List Char} {σ σ' : RScan}
    (st : RStyle) (hP : P ≤ doc.length)
    (hni : st ≠ .Identifier) (hne : st ≠ .EscapeChar)
    (hsni : σ.state ≠ .Identifier)
    (h : Rel P L doc.length σ σ') :
    Rel P L doc.length
      (forwardSetState doc st (setState doc .Identifier σ))
      (forwardSetState doc st (setState doc .Identifier σ')) := by
  have h1 : Rel P L doc.length σ
      { σ' with chBeforeIdentifier := σ.chBeforeIdentifier } :=
    Rel_chBIrrel hsni _ h
  have h2 := Rel_forwardSetState st hP hni hne
    (Rel_setStateChB .Identifier hP (by decide) (by exact rfl) h1)
  exact Rel_chBIrrel hni σ'.chBeforeIdentifier h2

theorem Rel_visSet {P L len : Nat} {σ σ' : RScan} (b : Bool)
    (h : Rel P L len σ σ') :
    Rel P L len { σ with visibleChars := b } { σ' with visibleChars := b } := by
  obtain ⟨hpos, hPp, hst, hsty, hseg, hlen, hsp, hsl, hls, hLl, hlc, hv, hu,
    hm, hd, hid, hes⟩ := h
  exact ⟨hpos, hPp, hst, hsty, hseg, hlen, hsp, hsl, hls, hLl, hlc, rfl, hu,
    hm, hd, hid, hes⟩

theorem Rel_lcSet {P L len : Nat} {σ σ' : RScan} (b : Bool)
    (h : Rel P L len σ σ') :
    Rel P L len { σ with lineStateLineComment := b }
      { σ' with lineStateLineComment := b } := by
  obtain ⟨hpos, hPp, hst, hsty, hseg, hlen, hsp, hsl, hls, hLl, hlc, hv, hu,
    hm, hd, hid, hes⟩ := h
  exact ⟨hpos, hPp, hst, hsty, hseg, hlen, hsp, hsl, hls, hLl, rfl, hv, hu,
    hm, hd, hid, hes⟩

theorem Rel_digitsSet {P L len : Nat} {σ σ' : RScan} (d : Int)
    (h : Rel P L len σ σ') :
    Rel P L len { σ with escDigits := d } { σ' with escDigits := d } := by
  obtain ⟨hpos, hPp, hst, hsty, hseg, hlen, hsp, hsl, hls, hLl, hlc, hv, hu,
    hm, hd2, hid, hes⟩ := h
  refine ⟨hpos, hPp, hst, hsty, hseg, hlen, hsp, hsl, hls, hLl, hlc, hv, hu,
    hm, hd2, hid, ?_⟩
  intro hE
  obtain ⟨h1, h2, h3, h4, h5⟩ := hes hE
  exact ⟨h1, rfl, h3, h4, h5⟩

theorem Rel_identEnter {P L : Nat} {doc : List Char} {σ σ' : RScan} (c : Char)
    (hP : P ≤ doc.length) (h : Rel P L doc.length σ σ') :
    Rel P L doc.length
      { setState doc .Identifier σ with chBeforeIdentifier := c }
      { setState doc .Identifier σ' with chBeforeIdentifier := c } := by
  obtain ⟨hpos, hPp, hst, hsty, hseg, hlen, hsp, hsl, hls, hLl, hlc, hv, hu,
    hm, hd, hid, hes⟩ := Rel_commitTo hP h
  have hmn : P ≤ min σ.pos doc.length := le_min h.pos_ge hP
  exact ⟨hpos, hPp, rfl, hsty, hseg, hlen, hsp, hsl, hls, hLl, hlc, hv, hu,
    hm, hd, fun _ => ⟨rfl, hmn⟩, fun hE => by simp [setState, commitTo] at hE⟩

theorem Rel_lineFlush {P L len : Nat} {σ σ' : RScan} (v : Nat)
    (h : Rel P L len σ σ') :
    Rel P L len
      { σ with
        lineStates := σ.lineStates ++ [v]
        lineStateLineComment := false
        visibleChars := false
        insideUrl := false }
      { σ' with
        lineStates := σ'.lineStates ++ [v]
        lineStateLineComment := false
        visibleChars := false
        insideUrl := false } := by
  obtain ⟨hpos, hPp, hst, hsty, hseg, hlen, hsp, hsl, hls, hLl, hlc, hv2, hu,
    hm, hd, hid, hes⟩ := h
  refine ⟨hpos, hPp, hst, hsty, hseg, hlen, hsp, hsl, ?_, ?_, rfl, rfl, rfl,
    hm, hd, hid, hes⟩
  · rw [hls, List.drop_append_eq_append_drop]
    have : L - σ.lineStates.length = 0 := by omega
    rw [this, List.drop_zero]
  · simp only [List.length_append, List.length_cons, List.length_nil]
    omega


theorem changeState_state (st : RStyle) (s : RScan) :
    (changeState st s).state = st := rfl

theorem changeState_pos (st : RStyle) (s : RScan) :
    (changeState st s).pos = s.pos := rfl

theorem Rel_switchStep {P L : Nat} {doc : List Char} (kw : List (List Char))
    {σ σ' : RScan} (hP : P ≤ doc.length) (h : Rel P L doc.length σ σ') :
    (switchStep doc kw σ').2 = (switchStep doc kw σ).2 ∧
    Rel P L doc.length (switchStep doc kw σ).1 (switchStep doc kw σ').1 := by
  obtain ⟨p, st, sg, sty, lsl, lc, cb, vb, ub, m, d, eo, ed, eh, eb⟩ := σ
  obtain ⟨p', st', sg', sty', lsl', lc', cb', vb', ub', m', d', eo', ed',
    eh', eb'⟩ := σ'
  have hpos : p = p' := h.pos_eq.symm
  have hstate : st = st' := h.state_eq.symm
  have hsty : sty' = sty.drop P := h.styles_eq
  have hls : lsl' = lsl.drop L := h.ls_eq
  have hlc : lc = lc' := h.lc_eq.symm
  have hvb : vb = vb' := h.vis_eq.symm
  have hub : ub = ub' := h.url_eq.symm
  have hm : m = m' := h.md_eq.symm
  have hd : d = d' := h.dc_eq.symm
  subst hpos hstate hsty hls hlc hvb hub hm hd
  cases st with
  | Default =>
    simp only [switchStep]
    exact ⟨by simp, h⟩
  | Keyword =>
    simp only [switchStep]
    exact ⟨by simp, h⟩
  | Function =>
    simp only [switchStep]
    exact ⟨by simp, h⟩
  | FormatSpecifier =>
    simp only [switchStep]
    exact ⟨by simp, h⟩
  | Operator =>
    simp only [switchStep]
    exact ⟨by simp, Rel_setState .Default hP (by decide) (by decide) h⟩
  | Number =>
    simp only [switchStep]
    split_ifs with c1
    · exact ⟨by simp, h⟩
    · exact ⟨by simp, Rel_setState .Default hP (by decide) (by decide) h⟩
  | Comment =>
    simp only [switchStep]
    split_ifs with c1
    · exact ⟨by simp, Rel_setState .Default hP (by decide) (by decide) h⟩
    · exact ⟨by simp, h⟩
  | Directive =>
    simp only [switchStep]
    split_ifs with c1
    · exact ⟨by simp, Rel_setState .Default hP (by decide) (by decide) h⟩
    · exact ⟨by simp, h⟩
  | InfixOp =>
    simp only [switchStep]
    split_ifs with c1 c2
    · exact ⟨by simp, Rel_setState .Default hP (by decide) (by decide) h⟩
    · exact ⟨by simp, Rel_forwardSetState .Default hP (by decide)
        (by decide) h⟩
    · exact ⟨by simp, h⟩
  | StringSQ =>
    simp only [switchStep]
    exact Rel_stringStep hP (Or.inl rfl) h
  | StringDQ =>
    simp only [switchStep]
    exact Rel_stringStep hP (Or.inr (Or.inl rfl)) h
  | Backticks =>
    simp only [switchStep]
    exact Rel_stringStep hP (Or.inr (Or.inr (Or.inl rfl))) h
  | RawStringSQ =>
    simp only [switchStep]
    exact Rel_stringStep hP (Or.inr (Or.inr (Or.inr (Or.inl rfl)))) h
  | RawStringDQ =>
    simp only [switchStep]
    exact Rel_stringStep hP (Or.inr (Or.inr (Or.inr (Or.inr rfl)))) h
  | Identifier =>
    obtain ⟨hcb, hPseg⟩ := h.ident_inv rfl
    have hcb2 : cb = cb' := hcb.symm
    subst hcb2
    have hPseg2 : P ≤ sg := hPseg
    have hseg2 : sg' = sg := by
      have h2 : sg' = max sg P := h.seg_eq
      omega
    subst hseg2
    simp only [switchStep, changeState_state, changeState_pos]
    split_ifs with c1 c2 c3 c4 c5 c6 <;>
      first
        | (exfalso; simp_all [changeState]; done)
        | exact ⟨by simp, h⟩
        | exact ⟨by simp, Rel_setState .Default hP (by decide) (by decide) h⟩
        | exact ⟨by simp, Rel_setState .Default hP (by decide) (by decide)
            (Rel_changeState .Keyword (by decide) (by decide) h)⟩
        | exact ⟨by simp, Rel_setState .Default hP (by decide) (by decide)
            (Rel_changeState .Function (by decide) (by decide) h)⟩
  | EscapeChar =>
    obtain ⟨heo, hed, heh, heb, hrange⟩ := h.esc_inv rfl
    have heo2 : eo = eo' := heo.symm
    have hed2 : ed = ed' := hed.symm
    have heh2 : eh = eh' := heh.symm
    have heb2 : eb = eb' := heb.symm
    subst heo2 hed2 heh2 heb2
    have hrg : eo = .StringSQ ∨ eo = .StringDQ ∨ eo = .Backticks := hrange
    have hni : eo ≠ .Identifier := by
      rcases hrg with h1 | h1 | h1 <;> simp [h1]
    have hne : eo ≠ .EscapeChar := by
      rcases hrg with h1 | h1 | h1 <;> simp [h1]
    simp only [switchStep]
    split_ifs with c1 c2
    · exact ⟨by simp, Rel_setState eo hP hni hne
        (Rel_posSet _ (by exact Nat.le_succ _) (Rel_digitsSet (ed - 1) h))⟩
    · exact ⟨by simp, Rel_setState eo hP hni hne (Rel_digitsSet (ed - 1) h)⟩
    · exact ⟨by simp, Rel_digitsSet (ed - 1) h⟩


set_option maxHeartbeats 2000000 in
theorem Rel_defaultStep {P L : Nat} {doc : List Char} {σ σ' : RScan}
    (hP : P ≤ doc.length) (h : Rel P L doc.length σ σ') :
    Rel P L doc.length (defaultStep doc σ) (defaultStep doc σ') := by
  obtain ⟨p, st, sg, sty, lsl, lc, cb, vb, ub, m, d, eo, ed, eh, eb⟩ := σ
  obtain ⟨p', st', sg', sty', lsl', lc', cb', vb', ub', m', d', eo', ed',
    eh', eb'⟩ := σ'
  have hpos : p = p' := h.pos_eq.symm
  have hstate : st = st' := h.state_eq.symm
  have hsty : sty' = sty.drop P := h.styles_eq
  have hls : lsl' = lsl.drop L := h.ls_eq
  have hlc : lc = lc' := h.lc_eq.symm
  have hvb : vb = vb' := h.vis_eq.symm
  have hub : ub = ub' := h.url_eq.symm
  have hm : m = m' := h.md_eq.symm
  have hd : d = d' := h.dc_eq.symm
  subst hpos hstate hsty hls hlc hvb hub hm hd
  by_cases hdef : st = .Default
  case neg =>
    simp only [defaultStep]
    rw [if_pos (show st ≠ .Default from hdef),
      if_pos (show st ≠ .Default from hdef)]
    exact h
  case pos =>
  subst hdef
  simp only [defaultStep, setState_pos]
  rw [if_neg (show ¬ (RStyle.Default ≠ RStyle.Default) by decide),
    if_neg (show ¬ (RStyle.Default ≠ RStyle.Default) by decide)]
  generalize checkRawString doc p (lineStartNextFrom doc p) = md0
  split_ifs <;>
    first
      | exact h
      | exact Rel_setState .Directive hP (by decide) (by decide) h
      | exact Rel_lcSet true (Rel_setState .Comment hP (by decide)
          (by decide) h)
      | exact Rel_setState .Comment hP (by decide) (by decide) h
      | exact Rel_posSet _ (by exact Nat.le_add_right _ _)
          (Rel_setState .RawStringSQ hP (by decide) (by decide)
            (Rel_mdSet md0.1 md0.2 (Rel_urlSet false h)))
      | exact Rel_posSet _ (by exact Nat.le_add_right _ _)
          (Rel_setState .RawStringDQ hP (by decide) (by decide)
            (Rel_mdSet md0.1 md0.2 (Rel_urlSet false h)))
      | exact Rel_fallbackEntry .StringSQ hP (by decide) (by decide)
          (by exact fun hx => RStyle.noConfusion hx)
          (Rel_mdSet md0.1 md0.2 (Rel_urlSet false h))
      | exact Rel_fallbackEntry .StringDQ hP (by decide) (by decide)
          (by exact fun hx => RStyle.noConfusion hx)
          (Rel_mdSet md0.1 md0.2 (Rel_urlSet false h))
      | exact Rel_urlSet false (Rel_setState .StringDQ hP (by decide)
          (by decide) h)
      | exact Rel_urlSet false (Rel_setState .StringSQ hP (by decide)
          (by decide) h)
      | exact Rel_setState .Backticks hP (by decide) (by decide) h
      | exact Rel_setState .Number hP (by decide) (by decide) h
      | exact Rel_identEnter (chPrevAt doc p) hP h
      | exact Rel_setState .InfixOp hP (by decide) (by decide) h
      | exact Rel_setState .Operator hP (by decide) (by decide) h

theorem Rel_bottomStep {P L : Nat} {doc : List Char} {σ σ' : RScan}
    (hP : P ≤ doc.length) (h : Rel P L doc.length σ σ') :
    Rel P L doc.length (bottomStep doc σ) (bottomStep doc σ') := by
  obtain ⟨p, st, sg, sty, lsl, lc, cb, vb, ub, m, d, eo, ed, eh, eb⟩ := σ
  obtain ⟨p', st', sg', sty', lsl', lc', cb', vb', ub', m', d', eo', ed',
    eh', eb'⟩ := σ'
  have hpos : p = p' := h.pos_eq.symm
  have hstate : st = st' := h.state_eq.symm
  have hsty : sty' = sty.drop P := h.styles_eq
  have hls : lsl' = lsl.drop L := h.ls_eq
  have hlc : lc = lc' := h.lc_eq.symm
  have hvb : vb = vb' := h.vis_eq.symm
  have hub : ub = ub' := h.url_eq.symm
  have hm : m = m' := h.md_eq.symm
  have hd : d = d' := h.dc_eq.symm
  subst hpos hstate hsty hls hlc hvb hub hm hd
  simp only [bottomStep]
  split_ifs <;>
    first
      | exact Rel_posSet _ (by exact Nat.le_succ _) h
      | exact Rel_posSet _ (by exact Nat.le_succ _) (Rel_visSet true h)
      | exact Rel_posSet _ (by exact Nat.le_succ _)
          (Rel_lineFlush (packLineState lc m d) h)
      | exact Rel_posSet _ (by exact Nat.le_succ _)
          (Rel_lineFlush (packLineState lc m d) (Rel_visSet true h))


theorem rLoop_stuck (doc : List Char) (kw : List (List Char)) (n : Nat)
    (s : RScan) (h : ¬ s.pos < doc.length) : rLoop doc kw n s = s := by
  cases n with
  | zero => rfl
  | succ n =>
    rw [rLoop, if_neg h]

theorem rLoop_add (doc : List Char) (kw : List (List Char)) (a b : Nat)
    (s : RScan) : rLoop doc kw (a + b) s = rLoop doc kw b (rLoop doc kw a s) := by
  induction a generalizing s with
  | zero =>
    rw [Nat.zero_add]
    rfl
  | succ a ih =>
    by_cases hg : s.pos < doc.length
    · rw [show a + 1 + b = (a + b) + 1 by omega, rLoop, if_pos hg]
      conv_rhs => rw [rLoop, if_pos hg]
      rcases hsw : switchStep doc kw s with ⟨s1, fb⟩
      cases fb
      · exact ih _
      · exact ih _
    · rw [rLoop_stuck doc kw _ s hg, rLoop_stuck doc kw _ s hg,
        rLoop_stuck doc kw _ s hg]

theorem Rel_rLoop {P L : Nat} {doc : List Char} (kw : List (List Char))
    (n : Nat) {σ σ' : RScan} (hP : P ≤ doc.length)
    (h : Rel P L doc.length σ σ') :
    Rel P L doc.length (rLoop doc kw n σ) (rLoop doc kw n σ') := by
  induction n generalizing σ σ' with
  | zero => exact h
  | succ n ih =>
    by_cases hg : σ.pos < doc.length
    · have hg' : σ'.pos < doc.length := by rw [h.pos_eq]; exact hg
      rw [rLoop, if_pos hg]
      conv_rhs => rw [rLoop, if_pos hg']
      obtain ⟨hflag, hrel⟩ := Rel_switchStep kw hP h
      rcases hsw : switchStep doc kw σ with ⟨s1, fb⟩
      rcases hsw' : switchStep doc kw σ' with ⟨s1', fb'⟩
      rw [hsw, hsw'] at hflag hrel
      simp only at hflag hrel
      subst hflag
      cases fb'
      · exact ih (Rel_bottomStep hP (Rel_defaultStep hP hrel))
      · exact ih hrel
    · have hg' : ¬ σ'.pos < doc.length := by rw [h.pos_eq]; exact hg
      rw [rLoop_stuck doc kw _ _ hg, rLoop_stuck doc kw _ _ hg']
      exact h

theorem Rel_completeStyles {P L : Nat} {doc : List Char} {σ σ' : RScan}
    (h : Rel P L doc.length σ σ') :
    (completeStyles doc σ).drop P = completeStyles doc σ' := by
  rw [completeStyles, completeStyles, h.styles_eq, h.state_eq, h.seg_eq,
    List.drop_append_eq_append_drop, List.drop_replicate, h.len_eq]
  have : doc.length - σ.startSeg - (P - σ.startSeg)
      = doc.length - max σ.startSeg P := by omega
  rw [this]


/-- C1: re-lex equivalence of `ColouriseRDoc`.  Let `σ` be the whole-document
scan's state after `n` passes, stopped at the start of a line (`σ.pos`) whose
previous line stored the line state `ls` (the last entry of the table, and
exactly the packed `lineStateLineComment`/`matchingDelimiter`/`dashCount`
values, as the scan stores them).  Restarting the lexer there — a fresh
`StyleContext` at position `σ.pos` with the initial style `σ.state`, seeding
`matchingDelimiter` and `dashCount` by unpacking `ls` — and running both
scans any further `m` passes produces exactly the same per-character style
array from `σ.pos` on, and exactly the same stored line-state table from
line `σ.lineStates.length` on. -/
theorem c1_relex_equivalence (doc : List Char) (kw : List (List Char))
    (n m : Nat) (σ : RScan) (b : Bool) (ls : Nat)
    (hσ : σ = rLoop doc kw n (initScan 0 .Default 0 0))
    (hPlen : σ.pos ≤ doc.length)
    (hnid : σ.state ≠ .Identifier) (hnesc : σ.state ≠ .EscapeChar)
    (hlen : σ.styles.length = σ.startSeg)
    (hsp : σ.startSeg ≤ σ.pos) (hsl : σ.startSeg ≤ doc.length)
    (hlc : σ.lineStateLineComment = false)
    (hvis : σ.visibleChars = false) (hurl : σ.insideUrl = false)
    (hmd : σ.matchingDelimiter < 128)
    (hlast : σ.lineStates.getLast? = some ls)
    (hpack : ls = packLineState b σ.matchingDelimiter σ.dashCount) :
    (completeStyles doc (rLoop doc kw (n + m) (initScan 0 .Default 0 0))).drop
        σ.pos
      = completeStyles doc (rLoop doc kw m
          (initScan σ.pos σ.state ((ls >>> 1) &&& 127) (ls >>> 8))) ∧
    (rLoop doc kw (n + m) (initScan 0 .Default 0 0)).lineStates.drop
        σ.lineStates.length
      = (rLoop doc kw m
          (initScan σ.pos σ.state ((ls >>> 1) &&& 127) (ls >>> 8))).lineStates := by
  have hc : (if b then 1 else 0) ≤ 1 := by cases b <;> decide
  have hmd2 : (ls >>> 1) &&& 127 = σ.matchingDelimiter := by
    rw [hpack]
    exact unpack_md _ _ _ hc hmd
  have hdc2 : ls >>> 8 = σ.dashCount := by
    rw [hpack]
    exact unpack_dc _ _ _ hc hmd
  have h0 : Rel σ.pos σ.lineStates.length doc.length σ
      (initScan σ.pos σ.state ((ls >>> 1) &&& 127) (ls >>> 8)) := by
    refine ⟨rfl, le_refl _, rfl, ?_, ?_, hlen, hsp, hsl, ?_, le_refl _,
      hlc.symm, hvis.symm, hurl.symm, hmd2, hdc2,
      fun hI => absurd hI hnid, fun hE => absurd hE hnesc⟩
    · rw [List.drop_eq_nil_of_le (by omega)]
      rfl
    · show σ.pos = max σ.startSeg σ.pos
      omega
    · rw [List.drop_length]
      rfl
  have hrel := Rel_rLoop kw m hPlen h0
  rw [rLoop_add doc kw n m (initScan 0 .Default 0 0), ← hσ]
  exact ⟨Rel_completeStyles hrel, hrel.ls_eq.symm⟩


/-- Witness for C1 on the document `#a`¶`x`¶: after 3 passes the full scan
stands at position 3 (the start of line 1) in state `Comment`, line 0 having
stored line state 1; restarting there with that seed and running 4 more
passes reproduces the full scan's styles and line states from the seam on. -/
theorem c1_witness :
    (completeStyles ['#', 'a', '\n', 'x', '\n']
        (rLoop ['#', 'a', '\n', 'x', '\n'] [] (3 + 4)
          (initScan 0 .Default 0 0))).drop
        (rLoop ['#', 'a', '\n', 'x', '\n'] [] 3 (initScan 0 .Default 0 0)).pos
      = completeStyles ['#', 'a', '\n', 'x', '\n']
          (rLoop ['#', 'a', '\n', 'x', '\n'] [] 4
            (initScan
              (rLoop ['#', 'a', '\n', 'x', '\n'] [] 3
                (initScan 0 .Default 0 0)).pos
              (rLoop ['#', 'a', '\n', 'x', '\n'] [] 3
                (initScan 0 .Default 0 0)).state
              ((1 >>> 1) &&& 127) (1 >>> 8))) ∧
    (rLoop ['#', 'a', '\n', 'x', '\n'] [] (3 + 4)
        (initScan 0 .Default 0 0)).lineStates.drop
        (rLoop ['#', 'a', '\n', 'x', '\n'] [] 3
          (initScan 0 .Default 0 0)).lineStates.length
      = (rLoop ['#', 'a', '\n', 'x', '\n'] [] 4
          (initScan
            (rLoop ['#', 'a', '\n', 'x', '\n'] [] 3
              (initScan 0 .Default 0 0)).pos
            (rLoop ['#', 'a', '\n', 'x', '\n'] [] 3
              (initScan 0 .Default 0 0)).state
            ((1 >>> 1) &&& 127) (1 >>> 8))).lineStates :=
  c1_relex_equivalence ['#', 'a', '\n', 'x', '\n'] [] 3 4
    (rLoop ['#', 'a', '\n', 'x', '\n'] [] 3 (initScan 0 .Default 0 0)) true 1
    rfl (by decide) (by decide) (by decide) (by decide) (by decide)
    (by decide) (by decide) (by decide) (by decide) (by decide) (by decide)
    (by decide)

end RLex
